import Mathlib

namespace STAS

/-! Shallow embedding of the batch-construction pipeline of
`fairseq/data/sents_perm_and_predict_mask_after_shff_dataset.py`.
Token ids are natural numbers; torch tensors are modelled as lists of rows;
every numpy random draw is passed in as an oracle parameter, constrained in
theorems by hypotheses stating exactly what the numpy API guarantees about
the draw (for example, `rng.shuffle` of `arange n` yields a permutation of
`range n`, and `rng.randint(k)` yields a value in `[0, k)`).  Python code
that can raise (`rng.randint(0)`, `max([])`, `assert`) is modelled with
`Option` or with an explicit result constructor. -/

/-- Python `max(l)` over a list of naturals; `max` of an empty list raises in
Python, and call sites where the argument can be empty are modelled with
`Option`, so the default value `0` is never observed. -/
def listMax (l : List ℕ) : ℕ := l.foldl max 0

/-- Helper recursion for `split_list`: walks the token list carrying the
current sublist, flushing it exactly when the current token equals `key`;
the source appends each token to the sublist first, then flushes on a match
(so the separator ends the produced sentence), and finally appends a
non-empty trailing sublist. -/
def splitListAux (key : ℕ) : List ℕ → List ℕ → List (List ℕ)
  | [], sub => if sub.length > 0 then [sub] else []
  | v :: rest, sub =>
    let sub2 := sub ++ [v]
    if v = key then (if sub2.length > 0 then [sub2] else []) ++ splitListAux key rest []
    else splitListAux key rest sub2

/-- Embedding of `split_list(lst, key)` (lines 20-33 of the dataset source). -/
def splitList (lst : List ℕ) (key : ℕ) : List (List ℕ) := splitListAux key lst []

/-- Numpy fancy-index assignment `arr[idxs] = vals`, realised as a left fold of
single-position writes (`arr[idxs[k]] = vals[k]` for k in order).  The source
only uses it with pairwise-distinct indices, for which this agrees with
numpy's semantics. -/
def scatterAssign {α : Type} (arr : List α) (idxs : List ℕ) (vals : List α) : List α :=
  (idxs.zip vals).foldl (fun a p => a.set p.1 p.2) arr

/-- Numpy `np.delete(arr, idxs)`: keep, in order, exactly the entries of `arr`
whose position is not listed in `idxs`. -/
def npDelete (arr : List ℕ) (idxs : List ℕ) : List ℕ :=
  ((List.range arr.length).filter (fun j => decide (j ∉ idxs))).map (fun j => arr.getD j 0)

/-- The fixed-window length `int(len(truncate_sents) * fix_ratio)` of
`shuffle_sents` (line 102).  Python `int()` truncates toward zero, which for
the nonnegative products used here is the floor. -/
def lenFixed (r : ℚ) (n : ℕ) : ℕ := (⌊(n : ℚ) * r⌋).toNat

/-- The fancy-indexed update of `target_order` in `shuffle_sents` (lines
105-107): starting from `arange n`, the entries at positions outside
`fixedIdxs` (the `np.delete` result) are overwritten by `permOut`, the
outcome of `rng.permutation` over those same entries. -/
def targetOrderFixed (n : ℕ) (fixedIdxs : List ℕ) (permOut : List ℕ) : List ℕ :=
  scatterAssign (List.range n) (npDelete (List.range n) fixedIdxs) permOut

/-- The `target_order` computed by `create_src_tok_batch.shuffle_sents`
(lines 98-108) for `n` retained sentences.  `shuffleOut` is the outcome of
`rng.shuffle(target_order)` in the `fix_ratio == 0` branch; `startPos` the
outcome of `rng.randint(n - len_fixed)` and `permOut` the outcome of
`rng.permutation` in the other branch.  `none` models the `ValueError`
raised by `rng.randint(0)`. -/
def shuffleSentsOrder (r : ℚ) (n : ℕ) (shuffleOut : List ℕ) (startPos : ℕ)
    (permOut : List ℕ) : Option (List ℕ) :=
  if r = 0 then some shuffleOut
  else if n - lenFixed r n = 0 then none
  else some (targetOrderFixed n (List.range' startPos (lenFixed r n)) permOut)

/-- The write-back loop `shuffle_sents[order] = sents[idx] for idx, order in
enumerate(target_order)` (lines 110-111 and 415-416): a scatter of the first
`n` sentences into a length-`n` array of `None` placeholders (modelled as
`Option`, extracted with `getD []`; when `ord` is a permutation of `range n`
every slot is filled, matching the source where a remaining `None` would
crash downstream). -/
def applyOrder (n : ℕ) (ord : List ℕ) (sents : List (List ℕ)) : List (List ℕ) :=
  (scatterAssign (List.replicate n (none : Option (List ℕ))) ord ((sents.take n).map some)).map
    (fun o => o.getD [])

/-- The truncation loop shared by both `shuffle_sents` implementations (lines
87-92 and 395-400): greedily keep sentences while the running token total
stays within `budget`, and stop at the first sentence that would exceed it. -/
def truncateSents (budget : ℕ) : List (List ℕ) → List (List ℕ) → List (List ℕ)
  | [], acc => acc
  | sent :: rest, acc =>
    if (acc.map (fun s => s.length)).sum + sent.length ≤ budget then
      truncateSents budget rest (acc ++ [sent])
    else acc

/-- The flattening loop of `create_src_tok_batch` (lines 140-147): greedily
extend the flat document and record each kept sentence's start offset, and
stop (`break`) at the first sentence that would exceed `budget`. -/
def flattenGreedy (budget : ℕ) : List (List ℕ) → List ℕ → List ℕ → List ℕ × List ℕ
  | [], doc, cpos => (doc, cpos)
  | sent :: rest, doc, cpos =>
    if doc.length + sent.length ≤ budget then
      flattenGreedy budget rest (doc ++ sent) (cpos ++ [doc.length])
    else (doc, cpos)

/-- The flattening loop of `get_docs` (lines 192-203), which additionally
keeps the list of retained sentences (`truncate_doc_sents`).  The source
also asserts `sent[-1] == sep_id` on each visited sentence; that invariant
is established for all pipeline inputs by `retained_sentence_invariant`
below, so it is not re-modelled as a guard here. -/
def getDocsTruncAux (budget : ℕ) :
    List (List ℕ) → List ℕ → List ℕ → List (List ℕ) → List ℕ × List ℕ × List (List ℕ)
  | [], doc, cpos, ds => (doc, cpos, ds)
  | sent :: rest, doc, cpos, ds =>
    if doc.length + sent.length ≤ budget then
      getDocsTruncAux budget rest (doc ++ sent) (cpos ++ [doc.length]) (ds ++ [sent])
    else (doc, cpos, ds)

/-- Greedy keep-count over sentence lengths with running total `t`: how many
leading sentences the budgeted loops retain.  Proof-side characterisation of
the three loops above. -/
def keepCount (budget : ℕ) : List ℕ → ℕ → ℕ
  | [], _ => 0
  | l :: rest, t => if t + l ≤ budget then keepCount budget rest (t + l) + 1 else 0

/-- Start offsets of consecutive blocks of the given lengths, beginning at
`base`.  Proof-side characterisation of the `cls_pos` accumulators. -/
def posList (base : ℕ) : List ℕ → List ℕ
  | [] => []
  | l :: rest => base :: posList (base + l) rest

/-- Configuration surface of the dataset relevant to batch collation. -/
structure Config where
  sepId : ℕ
  clsIdx : ℕ
  padIdx : ℕ
  maskIdx : ℕ
  unkIdx : ℕ
  maxDocLength : Option ℕ
  maxSentLen : ℕ
  maxTokensLen : ℕ
  fixRatio : ℚ
  maskedSentProb : ℚ
  minPredictionsPerDoc : ℕ
  maxPredictionsPerDoc : ℕ

/-- The per-sentence length cap (lines 129 and 185): a sentence longer than
`m` is cut to `m - 1` tokens and the separator re-attached. -/
def capSent (m sepId : ℕ) (sent : List ℕ) : List ℕ :=
  if sent.length ≤ m then sent else sent.take (m - 1) ++ [sepId]

/-- If the last sentence does not end with the separator, append one (lines
135-136 and 189-190). -/
def fixLastSep (sepId : ℕ) (sents : List (List ℕ)) : List (List ℕ) :=
  if sents = [] then sents
  else if (sents.getLastD []).getLastD 0 ≠ sepId then
    sents.dropLast ++ [sents.getLastD [] ++ [sepId]]
  else sents

/-- Per-sample preparation of `create_src_tok_batch` (lines 122-131): split
into sentences, apply the document cap (note the Python truthiness test
`if max_doc_length:`, under which both `None` and `0` skip the cap), cap
sentence lengths at `max_sent_len + 1` (the value passed from `collate`),
and prepend the class token. -/
def prepSentsPerm (cfg : Config) (src : List ℕ) : List (List ℕ) :=
  ((match cfg.maxDocLength with
    | none => splitList src cfg.sepId
    | some k => if k = 0 then splitList src cfg.sepId
                else (splitList src cfg.sepId).take k).map
      (capSent (cfg.maxSentLen + 1) cfg.sepId)).map (fun s => cfg.clsIdx :: s)

/-- Per-sample preparation of `get_docs` (lines 182-186): identical to
`prepSentsPerm` except that the document cap is an unconditional slice
`sents[:max_doc_length]` (Python `l[:None]` keeps the whole list). -/
def prepSentsMask (cfg : Config) (src : List ℕ) : List (List ℕ) :=
  ((match cfg.maxDocLength with
    | none => splitList src cfg.sepId
    | some k => (splitList src cfg.sepId).take k).map
      (capSent (cfg.maxSentLen + 1) cfg.sepId)).map (fun s => cfg.clsIdx :: s)

/-- Samples retained by `create_src_tok_batch` (empty sentence lists are
skipped by `continue`, then the trailing separator is ensured). -/
def retainedPerm (cfg : Config) (samples : List (List ℕ)) : List (List (List ℕ)) :=
  ((samples.map (prepSentsPerm cfg)).filter (fun s => !s.isEmpty)).map (fixLastSep cfg.sepId)

/-- Samples retained by `get_docs` (same skip-and-fix policy). -/
def retainedMask (cfg : Config) (samples : List (List ℕ)) : List (List (List ℕ)) :=
  ((samples.map (prepSentsMask cfg)).filter (fun s => !s.isEmpty)).map (fixLastSep cfg.sepId)

/-- The `docs` output of `get_docs`: per retained sample, the budget-truncated
list of sentences (`truncate_doc_sents`). -/
def retainedMaskDocs (cfg : Config) (samples : List (List ℕ)) : List (List (List ℕ)) :=
  (retainedMask cfg samples).map (fun s => (getDocsTruncAux cfg.maxTokensLen s [] [] []).2.2)

/-- Batch tensors produced by `docs2tensor` / `doc2tensor`. -/
structure DocsTensor where
  srcTokens : List (List ℕ)
  docPadMask : List (List Bool)
  segmentIds : List (List ℕ)
  cpos : List (List ℕ)
  nsents : List ℕ
deriving DecidableEq

/-- Embedding of `docs2tensor(docs, pad_idx, sep_id)` (lines 56-82): each
tensor is created filled with its pad value (`pad_idx`, `0`, `0`, `True`)
and then row `i` is overwritten on `[0:len]` with the document's data, which
for row-lists is exactly data ++ fill.  `sep_id` is unused by the source
body and kept for signature fidelity. -/
def docs2tensor (docs : List (List ℕ × List ℕ)) (padIdx : ℕ) (_sepId : ℕ) : DocsTensor :=
  let maxDocLen := listMax (docs.map (fun d => d.1.length))
  let maxNsent := listMax (docs.map (fun d => d.2.length))
  { srcTokens := docs.map (fun d => d.1 ++ List.replicate (maxDocLen - d.1.length) padIdx)
  , docPadMask := docs.map (fun d =>
      List.replicate d.2.length false ++ List.replicate (maxNsent - d.2.length) true)
  , segmentIds := docs.map (fun _ => List.replicate maxDocLen 0)
  , cpos := docs.map (fun d => d.2 ++ List.replicate (maxNsent - d.2.length) 0)
  , nsents := docs.map (fun d => d.2.length) }

/-- The flattening preamble of `doc2tensor` (lines 344-350): concatenate the
sentences and record each sentence's start offset. -/
def flattenDoc : List (List ℕ) → List ℕ → List ℕ → List ℕ × List ℕ
  | [], doc, cpos => (doc, cpos)
  | sent :: rest, doc, cpos => flattenDoc rest (doc ++ sent) (cpos ++ [doc.length])

/-- Embedding of `SentsPermAndPredictMaskDataset.doc2tensor` (lines 340-381):
flatten each document, then build the very same tensors as `docs2tensor`
(the source textually duplicates that body, so the identical definition is
reused here). -/
def doc2tensor (docs_ : List (List (List ℕ))) (padIdx sepId : ℕ) : DocsTensor :=
  docs2tensor (docs_.map (fun d => flattenDoc d [] [])) padIdx sepId

/-- The tensor view produced by `create_src_tok_batch` for documents given as
per-document sentence lists: each document is flattened by the greedy loop of
lines 140-147 and the results are tensorized by `docs2tensor` (line 152). -/
def permTensorOf (budget padIdx sepId : ℕ) (sentss : List (List (List ℕ))) : DocsTensor :=
  docs2tensor (sentss.map (fun s => flattenGreedy budget s [] [])) padIdx sepId

/-- The masked-prediction count of `mask_sentences` (lines 425-426):
`min(max(min_predictions_per_doc, int(len(candi_indexes) * masked_sent_prob)),
max_predictions_per_doc)`; Python `int()` truncation equals the floor for
the nonnegative products used here. -/
def numPreds (minP maxP : ℕ) (nCandi : ℕ) (p : ℚ) : ℕ :=
  min (max minP (⌊(nCandi : ℚ) * p⌋).toNat) maxP

/-- The selection count as claim C3 words it, with `round` in place of the
source's `int()` truncation; stated only for comparison against `numPreds`. -/
def numPredsClaimed (minP maxP : ℕ) (n : ℕ) (p : ℚ) : ℕ :=
  min (max minP (round ((n : ℚ) * p)).toNat) maxP

/-- The sorted selected indexes of `mask_sentences` (lines 423-433): the first
`num_pred` entries of the shuffled candidate list, sorted ascending
(`selected_indexes.sort()`). -/
def selectedIndexesOf (minP maxP : ℕ) (p : ℚ) (candi : List ℕ) : List ℕ :=
  (candi.take (numPreds minP maxP candi.length p)).mergeSort (fun a b => decide (a ≤ b))

/-- Outcome of the 0.8 / 0.1 / 0.1 corruption draw of `mask_sentences`
(lines 437-457): whole-sentence mask, keep the original, or substitute a
random sibling sentence. -/
inductive CorruptAction where
  | maskWhole : CorruptAction
  | keepOriginal : CorruptAction
  | replaceRandom : CorruptAction
deriving DecidableEq

/-- Length adjustment of the substituted sentence (lines 447-451): truncate
keeping the terminal token if longer than the original, pad with mask tokens
before a final separator if shorter. -/
def lengthAdjust (rndSent : List ℕ) (oriLen : ℕ) (maskIdx sepIdx : ℕ) : List ℕ :=
  if oriLen < rndSent.length then rndSent.take (oriLen - 1) ++ [rndSent.getLastD 0]
  else if rndSent.length < oriLen then
    rndSent.dropLast ++ List.replicate (oriLen - rndSent.length) maskIdx ++ [sepIdx]
  else rndSent

/-- One corruption branch of `mask_sentences` (lines 437-457).  `cur` is the
current `output_doc[i]` (whose length sizes the all-mask sentence), `ori` is
`doc[i]`, `rnd` the sibling sentence used by the substitution branch. -/
def corruptSentence (act : CorruptAction) (cur ori rnd : List ℕ)
    (clsIdx sepIdx maskIdx : ℕ) : List ℕ :=
  match act with
  | .maskWhole => ((List.replicate cur.length maskIdx).set 0 clsIdx).set (cur.length - 1) sepIdx
  | .keepOriginal => ori
  | .replaceRandom => lengthAdjust rnd ori.length maskIdx sepIdx

/-- The inner `shuffle_sents` of `mask_sentences` (lines 394-420): truncate to
the token budget, then either scatter the sentences through the partially
fixed `target_order` (when the `uniform() < shuffle_prob` gate, modelled by
`gate`, passes) or deep-copy the truncated list. -/
def innerShuffle (cfg : Config) (gate : Bool) (innerPerm : List ℕ)
    (sents : List (List ℕ)) (fixedIdxs : List ℕ) : List (List ℕ) :=
  let ts := truncateSents cfg.maxTokensLen sents []
  let n := ts.length
  if gate then applyOrder n (targetOrderFixed n fixedIdxs innerPerm) sents
  else ts

/-- `get_rnd_sent` (lines 384-392) after its bounded retry loop: the sentence
at the drawn document and sentence positions.  The 10-try retry only shapes
the distribution of `rndIdx`; every pair with `rndIdx < len(docs)` remains a
possible outcome. -/
def getRndSent (pool : List (List (List ℕ))) (rndIdx sentIdx : ℕ) : List ℕ :=
  (pool.getD rndIdx []).getD sentIdx []

/-- Random draws consumed by `create_src_tok_batch`, per retained document. -/
structure PermOracle where
  shuffleOut : ℕ → List ℕ
  startPos : ℕ → ℕ
  permOut : ℕ → List ℕ

/-- Random draws consumed by `create_batch`/`mask_sentences`, per retained
document `k` and per selected-position ordinal `j`. -/
structure MaskOracle where
  candiShuffle : ℕ → List ℕ
  gate : ℕ → Bool
  innerPerm : ℕ → List ℕ
  act : ℕ → ℕ → CorruptAction
  rndDocIdx : ℕ → ℕ → ℕ
  rndSentIdx : ℕ → ℕ → ℕ

/-- The corruption loop of `mask_sentences` (lines 436-458): walk the sorted
selected positions in order, replacing `output_doc[i]` by the drawn
corruption of the current entry while recording the original sentence
`doc[i]` as reconstruction target. -/
def corruptLoop (cfg : Config) (act : ℕ → CorruptAction) (rnd : ℕ → List ℕ)
    (doc outputDoc : List (List ℕ)) (selectedSorted : List ℕ) :
    List (List ℕ) × List (List ℕ) :=
  selectedSorted.enum.foldl
    (fun (st : List (List ℕ) × List (List ℕ)) (p : ℕ × ℕ) =>
      (st.1.set p.2
        (corruptSentence (act p.1) (st.1.getD p.2 []) (doc.getD p.2 []) (rnd p.1)
          cfg.clsIdx cfg.sepId cfg.maskIdx),
       st.2 ++ [doc.getD p.2 []]))
    (outputDoc, [])

/-- Embedding of `mask_sentences(index, docs, ...)` (lines 383-460): shuffle
the candidate positions, take the first `num_pred` as `selected_indexes`,
shuffle the document holding those positions fixed, sort the selection, then
corrupt each selected position in ascending order while recording the
original sentences. -/
def maskSentencesDoc (cfg : Config) (mo : MaskOracle) (pool : List (List (List ℕ)))
    (index : ℕ) : List (List ℕ) × List ℕ × List (List ℕ) :=
  let doc := pool.getD index []
  let candi := mo.candiShuffle index
  let numP := numPreds cfg.minPredictionsPerDoc cfg.maxPredictionsPerDoc
    candi.length cfg.maskedSentProb
  let selected := candi.take numP
  let outputDoc := innerShuffle cfg (mo.gate index) (mo.innerPerm index) doc selected
  let selectedSorted := selectedIndexesOf cfg.minPredictionsPerDoc cfg.maxPredictionsPerDoc
    cfg.maskedSentProb candi
  let res := corruptLoop cfg (mo.act index)
    (fun j => getRndSent pool (mo.rndDocIdx index j) (mo.rndSentIdx index j))
    doc outputDoc selectedSorted
  (res.1, selectedSorted, res.2)

/-- Slice assignment `row[start : start + vals.length] = vals` on a row list. -/
def sliceAssign (row : List ℕ) (start : ℕ) (vals : List ℕ) : List ℕ :=
  row.take start ++ vals ++ row.drop (start + vals.length)

/-- The two rows written by `masked_sents2tensor` for one target sentence
(lines 479-491): both rows start as pad fill, the input row additionally has
the class id at position 0; then with `s = sent[1:]`, the input row gets
`s[:-1]` on `[1:len(s)]` and the target row gets `s` on `[0:len(s)]`. -/
def tensor3Row (maxSentLen padIdx clsIdx : ℕ) (full : List ℕ) : List ℕ × List ℕ :=
  let s := full.tail
  let baseIn := (List.replicate maxSentLen padIdx).set 0 clsIdx
  let baseTgt := List.replicate maxSentLen padIdx
  (sliceAssign baseIn 1 s.dropLast, sliceAssign baseTgt 0 s)

/-- The three tensors of `masked_sents2tensor`. -/
structure MaskedTensors where
  tgtSelectedIndexes : List (List ℕ)
  tgtInputMaskedSents : List (List (List ℕ))
  tgtMaskedSents : List (List (List ℕ))

/-- Embedding of `masked_sents2tensor` (lines 463-493).  `none` models the
raises reachable in the source: `max()` of an empty batch or of an empty
per-document sentence list (`ValueError`), the `assert max_nsent ==
max_nsent2`, and the per-sentence asserts `sent[0] == cls` and
`sent[1:][-1] == sep` (checked in the source's write loop; gathered here up
front, which is equivalent for an all-or-nothing result).  The loops that
pre-fill each tensor with its pad value and then overwrite row prefixes are
written as row construction: real rows via `tensor3Row`, remaining rows
keeping their fill (the input tensor's fill includes the class id at
position 0 set for all rows by line 480). -/
def maskedSents2tensor (docsSel : List (List ℕ)) (docsMasked : List (List (List ℕ)))
    (padIdx clsIdx sepIdx : ℕ) : Option MaskedTensors :=
  if docsSel.length = 0 then none
  else if docsMasked.any (fun ms => ms.length = 0) then none
  else if listMax (docsMasked.map (fun ms => ms.length)) ≠
      listMax (docsSel.map (fun sel => sel.length)) then none
  else if docsMasked.any (fun ms => ms.any (fun sent =>
      !(sent.headD 0 == clsIdx) || !(sent.tail.getLastD 0 == sepIdx))) then none
  else
    some { tgtSelectedIndexes := docsSel.map (fun sel =>
             sel ++ List.replicate
               (listMax (docsSel.map (fun sel2 => sel2.length)) - sel.length) 0)
         , tgtInputMaskedSents := docsMasked.map (fun ms =>
             ms.map (fun s => (tensor3Row
                 (listMax (docsMasked.map (fun ms2 => listMax (ms2.map (fun s2 => s2.length)))))
                 padIdx clsIdx s).1) ++
               List.replicate (listMax (docsSel.map (fun sel2 => sel2.length)) - ms.length)
                 ((List.replicate
                   (listMax (docsMasked.map (fun ms2 => listMax (ms2.map (fun s2 => s2.length)))))
                   padIdx).set 0 clsIdx))
         , tgtMaskedSents := docsMasked.map (fun ms =>
             ms.map (fun s => (tensor3Row
                 (listMax (docsMasked.map (fun ms2 => listMax (ms2.map (fun s2 => s2.length)))))
                 padIdx clsIdx s).2) ++
               List.replicate (listMax (docsSel.map (fun sel2 => sel2.length)) - ms.length)
                 (List.replicate
                   (listMax (docsMasked.map (fun ms2 => listMax (ms2.map (fun s2 => s2.length)))))
                   padIdx)) }

/-- Per-document body of `create_src_tok_batch` (lines 138-149): compute the
truncation and target order via `shuffle_sents`, permute, then flatten
greedily into `(truncate_doc, cls_pos)`. -/
def permPathDoc (cfg : Config) (shuffleOut : List ℕ) (startPos : ℕ) (permOut : List ℕ)
    (sents : List (List ℕ)) : Option (List ℕ × List ℕ) :=
  let ts := truncateSents cfg.maxTokensLen sents []
  match shuffleSentsOrder cfg.fixRatio ts.length shuffleOut startPos permOut with
  | none => none
  | some ord => some (flattenGreedy cfg.maxTokensLen (applyOrder ts.length ord sents) [] [])

/-- Embedding of `create_src_tok_batch` (lines 84-152) up to its tensor
output.  `none` models the `assert sep_id != 1` (line 116) and the
`rng.randint(0)` raise inside `shuffle_sents`. -/
def createSrcTokBatch (cfg : Config) (po : PermOracle) (samples : List (List ℕ)) :
    Option DocsTensor :=
  if cfg.sepId = 1 then none
  else
    let retained := retainedPerm cfg samples
    ((List.range retained.length).mapM (fun k =>
        permPathDoc cfg (po.shuffleOut k) (po.startPos k) (po.permOut k)
          (retained.getD k []))).map
      (fun docs => docs2tensor docs cfg.padIdx cfg.sepId)

/-- Embedding of `create_batch` (lines 496-533): run `get_docs`,
mask every document against the shared pool, tensorize the corrupted
documents with `doc2tensor`, and tensorize the reconstruction targets with
`masked_sents2tensor`.  The leading guard models the `assert sep_id !=
vocab.unk_index` of `get_docs` (line 175). -/
def createBatch (cfg : Config) (mo : MaskOracle) (samples : List (List ℕ)) :
    Option (DocsTensor × MaskedTensors) :=
  if cfg.sepId = cfg.unkIdx then none
  else
    let pool := retainedMaskDocs cfg samples
    let results := (List.range pool.length).map (fun i => maskSentencesDoc cfg mo pool i)
    let t := doc2tensor (results.map (fun r => r.1)) cfg.padIdx cfg.sepId
    match maskedSents2tensor (results.map (fun r => r.2.1)) (results.map (fun r => r.2.2))
        cfg.padIdx cfg.clsIdx cfg.sepId with
    | none => none
    | some m => some (t, m)

/-- Result of one `collate` call.  `empty` is the `return {}` for an empty
sample list; `failure` is any raise inside the two batch builders;
`assertMismatch` is a failure of the cross-view asserts (lines 296-298);
`batch` carries the two tensor views and the masked-target tensors (the
further fields of the returned dict — attention masks, positional marker,
permutation targets — are assembled from these and are outside the modelled
fragment). -/
inductive CollateResult where
  | empty : CollateResult
  | failure : CollateResult
  | assertMismatch : CollateResult
  | batch : DocsTensor → DocsTensor → MaskedTensors → CollateResult

/-- Embedding of `SentsPermAndPredictMaskDataset.collate` (lines 289-298):
the empty-batch early return, the two independent tensorizations, and the
three cross-view asserts comparing `doc_pad_mask`, `segment_ids` and
`nsents`. -/
def collate (cfg : Config) (po : PermOracle) (mo : MaskOracle)
    (samples : List (List ℕ)) : CollateResult :=
  if samples.length = 0 then .empty
  else
    match createSrcTokBatch cfg po samples, createBatch cfg mo samples with
    | some t1, some (t2, m) =>
      if t1.docPadMask = t2.docPadMask ∧ t1.segmentIds = t2.segmentIds ∧
          t1.nsents = t2.nsents then .batch t1 t2 m
      else .assertMismatch
    | _, _ => .failure

/-- What numpy guarantees about the draws used by `create_src_tok_batch`:
`rng.shuffle` of `arange n` is a permutation of `range n`; `rng.randint(k)`
lies in `[0, k)`; `rng.permutation` of the non-fixed entries permutes them. -/
abbrev permOracleValid (cfg : Config) (po : PermOracle) (samples : List (List ℕ)) : Prop :=
  ∀ k, k < (retainedPerm cfg samples).length →
    (cfg.fixRatio = 0 →
      (po.shuffleOut k).Perm (List.range
        (truncateSents cfg.maxTokensLen ((retainedPerm cfg samples).getD k []) []).length)) ∧
    (cfg.fixRatio ≠ 0 →
      po.startPos k <
        (truncateSents cfg.maxTokensLen ((retainedPerm cfg samples).getD k []) []).length -
          lenFixed cfg.fixRatio
            (truncateSents cfg.maxTokensLen ((retainedPerm cfg samples).getD k []) []).length ∧
      (po.permOut k).Perm (npDelete
        (List.range
          (truncateSents cfg.maxTokensLen ((retainedPerm cfg samples).getD k []) []).length)
        (List.range' (po.startPos k)
          (lenFixed cfg.fixRatio
            (truncateSents cfg.maxTokensLen
              ((retainedPerm cfg samples).getD k []) []).length))))

/-- What numpy guarantees about the draws used by `create_batch`:
`rng.shuffle` of the candidate positions is a permutation of `range n`;
the inner `rng.permutation` permutes the non-selected entries; the sibling
draw of the substitution branch addresses an existing pool sentence. -/
abbrev maskOracleValid (cfg : Config) (mo : MaskOracle) (samples : List (List ℕ)) : Prop :=
  ∀ k, k < (retainedMaskDocs cfg samples).length →
    (mo.candiShuffle k).Perm
      (List.range ((retainedMaskDocs cfg samples).getD k []).length) ∧
    (mo.gate k = true →
      (mo.innerPerm k).Perm (npDelete
        (List.range
          (truncateSents cfg.maxTokensLen
            ((retainedMaskDocs cfg samples).getD k []) []).length)
        ((mo.candiShuffle k).take
          (numPreds cfg.minPredictionsPerDoc cfg.maxPredictionsPerDoc
            (mo.candiShuffle k).length cfg.maskedSentProb)))) ∧
    (∀ j, j < (numPreds cfg.minPredictionsPerDoc cfg.maxPredictionsPerDoc
        (mo.candiShuffle k).length cfg.maskedSentProb) →
      mo.act k j = CorruptAction.replaceRandom →
      mo.rndDocIdx k j < (retainedMaskDocs cfg samples).length ∧
      mo.rndSentIdx k j <
        ((retainedMaskDocs cfg samples).getD (mo.rndDocIdx k j) []).length)

/-- Numpy contract of `rng.randint(high)` (single-argument form): the drawn
value lies in the half-open interval `[0, high)`; `high` itself is never
returned. -/
def randintCanReturn (high v : ℕ) : Prop := v < high

instance (high v : ℕ) : Decidable (randintCanReturn high v) := Nat.decLt v high

/-- The only token-id assertion executed in
`SentsPermAndPredictMaskDataset.__init__` (line 262): the sentence-separator
id is compared against the unknown-token id.  The sentence-mask id (line
264) is looked up and printed without any assertion, so it is an unused
argument here. -/
def initAssertPasses (sentSepIdx : ℕ) (_sentMaskIdx : ℕ) (unkIdx : ℕ) : Bool :=
  sentSepIdx != unkIdx

/-! ### Properties of the sentence splitter -/

theorem splitListAux_flatten (key : ℕ) :
    ∀ (l sub : List ℕ), (splitListAux key l sub).flatten = sub ++ l := by
  intro l
  induction l with
  | nil =>
    intro sub
    by_cases h : sub.length > 0
    · simp [splitListAux, h]
    · have hnil : sub = [] := List.eq_nil_of_length_eq_zero (Nat.eq_zero_of_not_pos h)
      simp [splitListAux, h, hnil]
  | cons v rest ih =>
    intro sub
    by_cases h : v = key
    · simp [splitListAux, h, ih]
    · simp [splitListAux, h, ih]

theorem splitListAux_ne_nil (key : ℕ) :
    ∀ (l sub : List ℕ), ∀ s ∈ splitListAux key l sub, s ≠ [] := by
  intro l
  induction l with
  | nil =>
    intro sub s hs
    by_cases h : sub.length > 0
    · simp [splitListAux, h] at hs
      subst hs
      intro hnil
      simp [hnil] at h
    · simp [splitListAux, h] at hs
  | cons v rest ih =>
    intro sub s hs
    by_cases h : v = key
    · simp [splitListAux, h] at hs
      rcases hs with hs | hs
      · subst hs; simp
      · exact ih [] s hs
    · simp [splitListAux, h] at hs
      exact ih (sub ++ [v]) s hs

theorem splitListAux_dropLast_getLast (key : ℕ) :
    ∀ (l sub : List ℕ), ∀ s ∈ (splitListAux key l sub).dropLast,
      s.getLast? = some key := by
  intro l
  induction l with
  | nil =>
    intro sub s hs
    by_cases h : sub.length > 0 <;> simp [splitListAux, h] at hs
  | cons v rest ih =>
    intro sub s hs
    by_cases h : v = key
    · simp only [splitListAux, if_pos h] at hs
      have hlen : (sub ++ [v]).length > 0 := by simp
      rw [if_pos hlen] at hs
      cases hr : splitListAux key rest [] with
      | nil => rw [hr] at hs; simp at hs
      | cons a t =>
        rw [hr] at hs
        rw [List.singleton_append, List.dropLast_cons₂] at hs
        rcases List.mem_cons.mp hs with hcase | hcase
        · subst hcase
          rw [List.getLast?_concat]
          exact congrArg some h
        · refine ih [] s ?_
          rw [hr]
          exact hcase
    · simp only [splitListAux, if_neg h] at hs
      exact ih (sub ++ [v]) s hs

theorem splitListAux_interior (key : ℕ) :
    ∀ (l sub : List ℕ), key ∉ sub →
      ∀ s ∈ splitListAux key l sub, key ∉ s.dropLast := by
  intro l
  induction l with
  | nil =>
    intro sub hsub s hs
    by_cases h : sub.length > 0
    · simp [splitListAux, h] at hs
      subst hs
      intro hmem
      exact hsub (List.dropLast_subset _ hmem)
    · simp [splitListAux, h] at hs
  | cons v rest ih =>
    intro sub hsub s hs
    by_cases h : v = key
    · simp [splitListAux, h] at hs
      rcases hs with hs | hs
      · subst hs
        rw [List.dropLast_concat]
        exact hsub
      · exact ih [] (by simp) s hs
    · simp [splitListAux, h] at hs
      refine ih (sub ++ [v]) ?_ s hs
      intro hk
      rcases List.mem_append.mp hk with hk | hk
      · exact hsub hk
      · rw [List.mem_singleton] at hk
        exact h hk.symm

/-- C9: the sentence splitter emits the input's tokens in order with nothing
dropped (`flatten` equals the input), every produced sentence is non-empty
(an empty trailing remainder is omitted), every sentence except a possible
trailing partial one ends with the separator, and the separator occurs only
as the last token of a sentence — equivalently, a new sentence starts
immediately after each separator occurrence, and a non-empty trailing
remainder without a terminal separator is still emitted. -/
theorem c9_split_list_sentences (lst : List ℕ) (key : ℕ) :
    (splitList lst key).flatten = lst ∧
    (∀ s ∈ splitList lst key, s ≠ []) ∧
    (∀ s ∈ (splitList lst key).dropLast, s.getLast? = some key) ∧
    (∀ s ∈ splitList lst key, key ∉ s.dropLast) :=
  ⟨splitListAux_flatten key lst [], splitListAux_ne_nil key lst [],
   splitListAux_dropLast_getLast key lst [], splitListAux_interior key lst [] (by simp)⟩

/-! ### Properties of fancy-index assignment (scatter) -/

theorem foldl_set_length {α : Type} (ps : List (ℕ × α)) :
    ∀ arr : List α, (ps.foldl (fun a p => a.set p.1 p.2) arr).length = arr.length := by
  induction ps with
  | nil => intro arr; rfl
  | cons p ps ih => intro arr; rw [List.foldl_cons, ih, List.length_set]

theorem scatterAssign_length {α : Type} (arr : List α) (idxs : List ℕ) (vals : List α) :
    (scatterAssign arr idxs vals).length = arr.length :=
  foldl_set_length _ _

theorem scatterAssign_cons {α : Type} (arr : List α) (i : ℕ) (idxs : List ℕ)
    (v : α) (vals : List α) :
    scatterAssign arr (i :: idxs) (v :: vals) = scatterAssign (arr.set i v) idxs vals := rfl

theorem scatterAssign_getElem?_not_mem {α : Type} (idxs : List ℕ) :
    ∀ (arr vals : List α) (j : ℕ), j ∉ idxs →
      (scatterAssign arr idxs vals)[j]? = arr[j]? := by
  induction idxs with
  | nil => intro arr vals j _; rfl
  | cons i is ih =>
    intro arr vals j hj
    cases vals with
    | nil => simp [scatterAssign, List.zip_nil_right]
    | cons v vs =>
      rw [scatterAssign_cons, ih _ _ _ (fun h => hj (List.mem_cons_of_mem _ h))]
      refine List.getElem?_set_ne (fun h => hj ?_)
      rw [← h]
      exact List.mem_cons_self i is

theorem scatterAssign_getD_written {α : Type} (d : α) (idxs : List ℕ) :
    ∀ (arr vals : List α), idxs.Nodup → vals.length = idxs.length →
      ∀ k, k < idxs.length → idxs.getD k 0 < arr.length →
        (scatterAssign arr idxs vals).getD (idxs.getD k 0) d = vals.getD k d := by
  induction idxs with
  | nil => intro arr vals _ _ k hk; simp at hk
  | cons i is ih =>
    intro arr vals hnd hlen k hk hbound
    cases vals with
    | nil => simp at hlen
    | cons v vs =>
      rw [scatterAssign_cons]
      cases k with
      | zero =>
        simp only [List.getD_cons_zero] at hbound ⊢
        rw [List.getD_eq_getElem?_getD,
          scatterAssign_getElem?_not_mem is _ _ i (List.Nodup.not_mem hnd),
          List.getElem?_set_self hbound]
        rfl
      | succ k =>
        simp only [List.getD_cons_succ] at hbound ⊢
        have hlen2 : vs.length = is.length := by simpa using hlen
        refine ih (arr.set i v) vs (List.Nodup.of_cons hnd) hlen2 k ?_ ?_
        · simpa using hk
        · simpa using hbound

theorem map_getD_range {α : Type} (d : α) (l : List α) :
    (List.range l.length).map (fun j => l.getD j d) = l := by
  apply List.ext_getElem
  · simp
  · intro i h1 h2
    simp only [List.getElem_map, List.getElem_range, List.getD_eq_getElem?_getD,
      List.getElem?_eq_getElem h2, Option.getD_some]

theorem map_getD_filter_range {α : Type} (d : α) (l : List α) (p : ℕ → Bool) :
    ((List.range l.length).filter p).map (fun j => l.getD j d) =
      ((List.range l.length).filter p).map (fun j => l.getD j d) := rfl

theorem scatterAssign_perm {α : Type} (d : α) (idxs : List ℕ) :
    ∀ (arr vals : List α), idxs.Nodup → (∀ i ∈ idxs, i < arr.length) →
      vals.length = idxs.length →
      (scatterAssign arr idxs vals).Perm
        ((((List.range arr.length).filter (fun j => decide (j ∉ idxs))).map
          (fun j => arr.getD j d)) ++ vals) := by
  induction idxs with
  | nil =>
    intro arr vals _ _ hlen
    have hvals : vals = [] := List.eq_nil_of_length_eq_zero hlen
    subst hvals
    have hfilter : (List.range arr.length).filter (fun j => decide (j ∉ ([] : List ℕ))) =
        List.range arr.length := by
      apply List.filter_eq_self.mpr
      intro a _
      simp
    rw [hfilter, List.append_nil, map_getD_range]
    rfl
  | cons i is ih =>
    intro arr vals hnd hbnd hlen
    cases vals with
    | nil => simp at hlen
    | cons v vs =>
      rw [scatterAssign_cons]
      have hi : i < arr.length := hbnd i (List.mem_cons_self i is)
      have hnotmem : i ∉ is := List.Nodup.not_mem hnd
      have hstep := ih (arr.set i v) vs (List.Nodup.of_cons hnd)
        (fun j hj => by rw [List.length_set]; exact hbnd j (List.mem_cons_of_mem _ hj))
        (by simpa using hlen)
      rw [List.length_set] at hstep
      refine hstep.trans ?_
      have hA : ((List.range arr.length).filter (fun j => decide (j ∉ is))).Perm
          (i :: (List.range arr.length).filter (fun j => decide (j ∉ i :: is))) := by
        rw [List.perm_ext_iff_of_nodup
          (List.Nodup.filter _ (List.nodup_range _))
          (List.Nodup.cons (fun hmem => by
              rcases List.mem_filter.mp hmem with ⟨_, hp⟩
              simp at hp)
            (List.Nodup.filter _ (List.nodup_range _)))]
        intro a
        constructor
        · intro ha
          rcases List.mem_filter.mp ha with ⟨har, hp⟩
          by_cases hai : a = i
          · exact List.mem_cons.mpr (Or.inl hai)
          · refine List.mem_cons.mpr (Or.inr (List.mem_filter.mpr ⟨har, ?_⟩))
            simp only [decide_eq_true_eq] at hp ⊢
            intro hmem
            rcases List.mem_cons.mp hmem with h1 | h1
            · exact hai h1
            · exact hp h1
        · intro ha
          rcases List.mem_cons.mp ha with ha | ha
          · subst ha
            refine List.mem_filter.mpr ⟨List.mem_range.mpr hi, ?_⟩
            simp only [decide_eq_true_eq]
            exact hnotmem
          · rcases List.mem_filter.mp ha with ⟨har, hp⟩
            refine List.mem_filter.mpr ⟨har, ?_⟩
            simp only [decide_eq_true_eq] at hp ⊢
            intro hmem
            exact hp (List.mem_cons_of_mem _ hmem)
      have hmapA : (((List.range arr.length).filter (fun j => decide (j ∉ is))).map
          (fun j => (arr.set i v).getD j d)).Perm
          ((arr.set i v).getD i d ::
            (((List.range arr.length).filter (fun j => decide (j ∉ i :: is))).map
              (fun j => (arr.set i v).getD j d))) := by
        have := hA.map (fun j => (arr.set i v).getD j d)
        simpa using this
      have hgetset : (arr.set i v).getD i d = v := by
        rw [List.getD_eq_getElem?_getD, List.getElem?_set_self hi]
        rfl
      have hmapcongr : ((List.range arr.length).filter (fun j => decide (j ∉ i :: is))).map
          (fun j => (arr.set i v).getD j d) =
          ((List.range arr.length).filter (fun j => decide (j ∉ i :: is))).map
          (fun j => arr.getD j d) := by
        apply List.map_congr_left
        intro a ha
        rcases List.mem_filter.mp ha with ⟨_, hp⟩
        simp only [decide_eq_true_eq] at hp
        have hne : i ≠ a := fun he => hp (he ▸ List.mem_cons_self i is)
        rw [List.getD_eq_getElem?_getD, List.getElem?_set_ne hne,
          List.getD_eq_getElem?_getD]
      refine (hmapA.append_right vs).trans ?_
      rw [hgetset, hmapcongr, List.cons_append]
      exact List.perm_middle.symm

/-! ### Properties of np.delete and the target order -/

theorem npDelete_range (n : ℕ) (idxs : List ℕ) :
    npDelete (List.range n) idxs =
      (List.range n).filter (fun j => decide (j ∉ idxs)) := by
  unfold npDelete
  rw [List.length_range]
  have : ∀ a ∈ (List.range n).filter (fun j => decide (j ∉ idxs)),
      (List.range n).getD a 0 = id a := by
    intro a ha
    rcases List.mem_filter.mp ha with ⟨har, _⟩
    have hlt : a < n := List.mem_range.mp har
    rw [List.getD_eq_getElem?_getD, List.getElem?_range hlt]
    rfl
  rw [List.map_congr_left this, List.map_id]

theorem npDelete_range_nodup (n : ℕ) (idxs : List ℕ) :
    (npDelete (List.range n) idxs).Nodup := by
  rw [npDelete_range]
  exact List.Nodup.filter _ (List.nodup_range _)

theorem npDelete_range_mem {n : ℕ} {idxs : List ℕ} {j : ℕ} :
    j ∈ npDelete (List.range n) idxs ↔ j < n ∧ j ∉ idxs := by
  rw [npDelete_range]
  constructor
  · intro hj
    rcases List.mem_filter.mp hj with ⟨har, hp⟩
    exact ⟨List.mem_range.mp har, by simpa using hp⟩
  · rintro ⟨h1, h2⟩
    exact List.mem_filter.mpr ⟨List.mem_range.mpr h1, by simpa using h2⟩

theorem targetOrderFixed_perm (n : ℕ) (fixedIdxs permOut : List ℕ)
    (hperm : permOut.Perm (npDelete (List.range n) fixedIdxs)) :
    (targetOrderFixed n fixedIdxs permOut).Perm (List.range n) := by
  unfold targetOrderFixed
  have hnodup := npDelete_range_nodup n fixedIdxs
  have hbnd : ∀ i ∈ npDelete (List.range n) fixedIdxs, i < (List.range n).length := by
    intro i hi
    rw [List.length_range]
    exact (npDelete_range_mem.mp hi).1
  have hlen : permOut.length = (npDelete (List.range n) fixedIdxs).length :=
    hperm.length_eq
  have hmain := scatterAssign_perm 0 (npDelete (List.range n) fixedIdxs)
    (List.range n) permOut hnodup hbnd hlen
  rw [List.length_range] at hmain
  refine hmain.trans ?_
  have hfe : (List.range n).filter
      (fun j => decide (j ∉ npDelete (List.range n) fixedIdxs)) =
      (List.range n).filter (fun j => decide (j ∈ fixedIdxs)) := by
    apply List.filter_congr
    intro a ha
    have hlt : a < n := List.mem_range.mp ha
    by_cases hmem : a ∈ fixedIdxs
    · simp [hmem, npDelete_range_mem]
    · simp [hmem, npDelete_range_mem, hlt]
  rw [hfe]
  have hmap : (((List.range n).filter (fun j => decide (j ∈ fixedIdxs))).map
      (fun j => (List.range n).getD j 0)) =
      (List.range n).filter (fun j => decide (j ∈ fixedIdxs)) := by
    have : ∀ a ∈ (List.range n).filter (fun j => decide (j ∈ fixedIdxs)),
        (List.range n).getD a 0 = id a := by
      intro a ha
      rcases List.mem_filter.mp ha with ⟨har, _⟩
      have hlt : a < n := List.mem_range.mp har
      rw [List.getD_eq_getElem?_getD, List.getElem?_range hlt]
      rfl
    rw [List.map_congr_left this, List.map_id]
  rw [hmap]
  refine (List.Perm.append_left _ hperm).trans ?_
  rw [npDelete_range]
  have hneg : (List.range n).filter (fun j => decide (j ∉ fixedIdxs)) =
      (List.range n).filter (fun j => !(decide (j ∈ fixedIdxs))) := by
    apply List.filter_congr
    intro a _
    simp
  rw [hneg]
  exact List.filter_append_perm _ _

theorem targetOrderFixed_length (n : ℕ) (fixedIdxs permOut : List ℕ) :
    (targetOrderFixed n fixedIdxs permOut).length = n := by
  unfold targetOrderFixed
  rw [scatterAssign_length, List.length_range]

theorem targetOrderFixed_fixed_point (n : ℕ) (fixedIdxs permOut : List ℕ) (i : ℕ)
    (hi : i ∈ fixedIdxs) (hin : i < n) :
    (targetOrderFixed n fixedIdxs permOut).getD i 0 = i := by
  unfold targetOrderFixed
  rw [List.getD_eq_getElem?_getD,
    scatterAssign_getElem?_not_mem _ _ _ i
      (fun hmem => (npDelete_range_mem.mp hmem).2 hi),
    List.getElem?_range hin]
  rfl

/-- C2: for every document with `n` retained sentences and every
`fix_ratio` in `[0, 1)`, whenever `shuffle_sents` computes a `target_order`
(`some`), that array is a permutation of `range n`, and when `fix_ratio > 0`
every index inside the chosen contiguous fixed window satisfies
`target_order[i] == i` (the assertion on line 108 always holds).  The
hypotheses state what numpy guarantees about the three draws involved. -/
theorem c2_target_order_is_permutation (r : ℚ) (n : ℕ) (shuffleOut : List ℕ)
    (startPos : ℕ) (permOut : List ℕ) (ord : List ℕ)
    (_hr0 : 0 ≤ r) (_hr1 : r < 1)
    (hsh : r = 0 → shuffleOut.Perm (List.range n))
    (hstart : r ≠ 0 → startPos < n - lenFixed r n)
    (hperm : r ≠ 0 → permOut.Perm (npDelete (List.range n)
      (List.range' startPos (lenFixed r n))))
    (hres : shuffleSentsOrder r n shuffleOut startPos permOut = some ord) :
    ord.Perm (List.range n) ∧
      (r ≠ 0 → ∀ i, startPos ≤ i → i < startPos + lenFixed r n →
        ord.getD i 0 = i) := by
  unfold shuffleSentsOrder at hres
  by_cases h0 : r = 0
  · rw [if_pos h0, Option.some_inj] at hres
    subst hres
    exact ⟨hsh h0, fun hne => absurd h0 hne⟩
  · rw [if_neg h0] at hres
    have hs := hstart h0
    have hn0 : ¬ (n - lenFixed r n = 0) := by omega
    rw [if_neg hn0, Option.some_inj] at hres
    subst hres
    constructor
    · exact targetOrderFixed_perm n _ _ (hperm h0)
    · intro _ i h1 h2
      apply targetOrderFixed_fixed_point
      · rw [List.mem_range'_1]
        exact ⟨h1, h2⟩
      · omega

/-- C2 witness: a concrete run with `fix_ratio = 1/2` on a 4-sentence
document, window `[1, 3)`, produces the permutation `[3, 1, 2, 0]` with the
window fixed pointwise. -/
theorem c2_target_order_is_permutation_witness :
    ([3, 1, 2, 0] : List ℕ).Perm (List.range 4) ∧
      ((1 / 2 : ℚ) ≠ 0 → ∀ i, 1 ≤ i → i < 1 + lenFixed (1 / 2 : ℚ) 4 →
        ([3, 1, 2, 0] : List ℕ).getD i 0 = i) := by
  have hlf : lenFixed (1 / 2 : ℚ) 4 = 2 := by
    unfold lenFixed
    rw [show ⌊((4 : ℕ) : ℚ) * (1 / 2 : ℚ)⌋ = 2 from by norm_num]
    decide
  refine c2_target_order_is_permutation (1 / 2 : ℚ) 4 [] 1 [3, 0] [3, 1, 2, 0]
    (by norm_num) (by norm_num)
    (fun h => absurd h (by norm_num))
    (fun _ => by rw [hlf]; decide)
    (fun _ => by rw [hlf]; decide)
    ?_
  unfold shuffleSentsOrder
  rw [if_neg (by norm_num : ¬ ((1 / 2 : ℚ) = 0)), hlf]
  norm_num
  decide

/-- C7 counterexample: for a document with 2 retained sentences and
`fix_ratio = 1/2` the window length is 1, the claimed start-offset range is
`[0, count - window_len] = [0, 1]`, but `rng.randint(count - window_len)`
(exclusive upper bound) can never return `count - window_len = 1`; so the
claimed inclusive support is wrong. -/
theorem c7_counterexample :
    lenFixed (1 / 2 : ℚ) 2 = 1 ∧
      ¬ randintCanReturn (2 - lenFixed (1 / 2 : ℚ) 2) (2 - lenFixed (1 / 2 : ℚ) 2) := by
  have hlf : lenFixed (1 / 2 : ℚ) 2 = 1 := by
    unfold lenFixed
    rw [show ⌊((2 : ℕ) : ℚ) * (1 / 2 : ℚ)⌋ = 1 from by norm_num]
    decide
  refine ⟨hlf, ?_⟩
  rw [hlf]
  exact fun h => absurd h (by decide)

/-- C7 amended: when `fix_ratio > 0`, the window has length
`floor(count * fix_ratio)` and the start offset is drawn uniformly by
`rng.randint(count - window_len)` from the half-open range
`[0, count - window_len)`: a value is a possible draw exactly when the
window it places ends strictly before `count`, and the inclusive endpoint
`count - window_len` is never drawn. -/
theorem c7_start_offset_support (n : ℕ) (r : ℚ) (sp : ℕ)
    (h1 : 1 ≤ n) (h2 : 0 < r) (h3 : r < 1) :
    randintCanReturn (n - lenFixed r n) sp ↔ sp + lenFixed r n < n := by
  have hlt : lenFixed r n < n := by
    unfold lenFixed
    have hn : (0 : ℚ) < n := by
      have : (1 : ℚ) ≤ n := by exact_mod_cast h1
      linarith
    have hfl : ⌊(n : ℚ) * r⌋ < (n : ℤ) := by
      rw [Int.floor_lt]
      push_cast
      calc (n : ℚ) * r < (n : ℚ) * 1 := by
            exact mul_lt_mul_of_pos_left h3 hn
        _ = (n : ℚ) := mul_one _
    have hge : (0 : ℤ) ≤ ⌊(n : ℚ) * r⌋ := by
      apply Int.floor_nonneg.mpr
      positivity
    omega
  unfold randintCanReturn
  omega

/-- C7 amended witness: with 4 retained sentences and `fix_ratio = 1/2`,
offset 1 is drawable iff the window `[1, 3)` ends before 4. -/
theorem c7_start_offset_support_witness :
    randintCanReturn (4 - lenFixed (1 / 2 : ℚ) 4) 1 ↔ 1 + lenFixed (1 / 2 : ℚ) 4 < 4 :=
  c7_start_offset_support 4 (1 / 2 : ℚ) 1 (by norm_num) (by norm_num) (by norm_num)

/-- C8 counterexample: a vocabulary in which the sentence-mask id (3) equals
the unknown-token id (3) but the separator id (5) does not — the claim says
construction must fail, yet the only assertion executed in `__init__`
passes. -/
theorem c8_counterexample : initAssertPasses 5 3 3 = true := by decide

/-- C8 amended: the constructor's assertion checks only that the
sentence-separator id differs from the unknown-token id; construction fails
exactly when they coincide, and the sentence-mask id is never checked (it
does not influence the assertion at all). -/
theorem c8_init_assert_separator_only (s m u : ℕ) :
    initAssertPasses s m u = true ↔ s ≠ u := by
  simp [initAssertPasses]

/-- C3 counterexample: for a document with 3 sentences, masking probability
1/2, minimum 1 and maximum 10 predictions, and shuffled candidates
`[2, 0, 1]`, the source selects `int(3 * 0.5) = 1` position while the
claim's `clamp(round(3 * 0.5), 1, 10) = 2`. -/
theorem c3_counterexample :
    (selectedIndexesOf 1 10 (1 / 2 : ℚ) [2, 0, 1]).length ≠
      numPredsClaimed 1 10 3 (1 / 2 : ℚ) := by
  have hfl : ⌊((3 : ℕ) : ℚ) * (1 / 2 : ℚ)⌋ = 1 := by norm_num
  have h1 : numPreds 1 10 3 (1 / 2 : ℚ) = 1 := by
    unfold numPreds
    rw [hfl]
    decide
  have h2 : numPredsClaimed 1 10 3 (1 / 2 : ℚ) = 2 := by
    unfold numPredsClaimed
    rw [show round (((3 : ℕ) : ℚ) * (1 / 2 : ℚ)) = 2 from by
      rw [round_eq]
      norm_num]
    decide
  unfold selectedIndexesOf
  rw [show ([2, 0, 1] : List ℕ).length = 3 from rfl, h1, h2]
  rw [show List.take 1 [2, 0, 1] = ([2] : List ℕ) from rfl, List.mergeSort_singleton]
  decide

/-- C3 amended: the number of selected positions equals
`clamp(int(len(doc) * p), min_predictions_per_doc, max_predictions_per_doc)`
— `int()` truncation, not `round` — in particular it lies between the two
bounds, and the returned selected-index list is strictly increasing (hence
duplicate-free). -/
theorem c3_selected_indexes_amended (minP maxP n : ℕ) (p : ℚ) (candi : List ℕ)
    (hperm : candi.Perm (List.range n))
    (_hp0 : 0 ≤ p) (hp1 : p ≤ 1) (hmin1 : 1 ≤ minP) (hminmax : minP ≤ maxP)
    (hminn : minP ≤ n) :
    (selectedIndexesOf minP maxP p candi).length = numPreds minP maxP n p ∧
    minP ≤ (selectedIndexesOf minP maxP p candi).length ∧
    (selectedIndexesOf minP maxP p candi).length ≤ maxP ∧
    List.Pairwise (· < ·) (selectedIndexesOf minP maxP p candi) := by
  have hclen : candi.length = n := by
    have h := hperm.length_eq
    simpa using h
  have hfl : (⌊(n : ℚ) * p⌋).toNat ≤ n := by
    have hle : (n : ℚ) * p ≤ (n : ℚ) := by
      calc (n : ℚ) * p ≤ (n : ℚ) * 1 := by
            apply mul_le_mul_of_nonneg_left hp1 (by positivity)
        _ = (n : ℚ) := mul_one _
    have h1 : ⌊(n : ℚ) * p⌋ ≤ (n : ℤ) := by
      calc ⌊(n : ℚ) * p⌋ ≤ ⌊(n : ℚ)⌋ := Int.floor_le_floor hle
        _ = (n : ℤ) := Int.floor_natCast n
    omega
  have hnum_le : numPreds minP maxP n p ≤ n := by
    unfold numPreds
    exact le_trans (min_le_left _ _) (max_le hminn hfl)
  have hnum_ge : minP ≤ numPreds minP maxP n p := by
    unfold numPreds
    exact le_min (le_max_left _ _) hminmax
  have hnum_max : numPreds minP maxP n p ≤ maxP := min_le_right _ _
  have hlen : (selectedIndexesOf minP maxP p candi).length = numPreds minP maxP n p := by
    unfold selectedIndexesOf
    rw [List.length_mergeSort, List.length_take, hclen]
    exact min_eq_left hnum_le
  have hnodup : (selectedIndexesOf minP maxP p candi).Nodup := by
    unfold selectedIndexesOf
    have h1 : candi.Nodup := (hperm.nodup_iff).mpr (List.nodup_range n)
    have h2 : (candi.take (numPreds minP maxP candi.length p)).Nodup :=
      (List.take_sublist _ _).nodup h1
    exact ((List.mergeSort_perm _ _).nodup_iff).mpr h2
  have hsorted : List.Pairwise (fun a b : ℕ => a ≤ b)
      (selectedIndexesOf minP maxP p candi) := by
    unfold selectedIndexesOf
    have hs : List.Pairwise (fun a b : ℕ => decide (a ≤ b) = true)
        ((candi.take (numPreds minP maxP candi.length p)).mergeSort
          (fun a b => decide (a ≤ b))) :=
      List.sorted_mergeSort
        (fun a b c hab hbc => by
          simp only [decide_eq_true_eq] at hab hbc ⊢
          omega)
        (fun a b => by
          simp only [Bool.or_eq_true, decide_eq_true_eq]
          omega)
        (candi.take (numPreds minP maxP candi.length p))
    refine hs.imp ?_
    intro a b hab
    simpa using hab
  refine ⟨hlen, ?_, ?_, ?_⟩
  · rw [hlen]; exact hnum_ge
  · rw [hlen]; exact hnum_max
  · refine (hsorted.and hnodup).imp ?_
    intro a b hab
    exact lt_of_le_of_ne hab.1 hab.2

/-- C3 amended witness: the concrete 3-sentence document of the
counterexample satisfies the amended statement with count 1. -/
theorem c3_selected_indexes_amended_witness :
    (selectedIndexesOf 1 10 (1 / 2 : ℚ) [2, 0, 1]).length = numPreds 1 10 3 (1 / 2 : ℚ) ∧
    1 ≤ (selectedIndexesOf 1 10 (1 / 2 : ℚ) [2, 0, 1]).length ∧
    (selectedIndexesOf 1 10 (1 / 2 : ℚ) [2, 0, 1]).length ≤ 10 ∧
    List.Pairwise (· < ·) (selectedIndexesOf 1 10 (1 / 2 : ℚ) [2, 0, 1]) :=
  c3_selected_indexes_amended 1 10 3 (1 / 2 : ℚ) [2, 0, 1] (by decide)
    (by norm_num) (by norm_num) (by norm_num) (by norm_num) (by norm_num)

/-- C4: whatever corruption branch is drawn for a selected position, the
corrupted sentence has the original sentence's length, starts with the class
id, and ends with the separator id.  The hypotheses are the sentence
invariant guaranteed by `get_docs` for both the original sentence and the
sibling sentence used by the substitution branch (both live in the document
pool); `cur = ori` holds at corruption time because the selected positions
were held fixed by the inner shuffle. -/
theorem c4_corruption_preserves_structure (act : CorruptAction) (ori rnd : List ℕ)
    (clsIdx sepIdx maskIdx : ℕ)
    (hlen : 2 ≤ ori.length) (hhead : ori.headD 0 = clsIdx)
    (hlast : ori.getLastD 0 = sepIdx)
    (hrlen : 2 ≤ rnd.length) (hrhead : rnd.headD 0 = clsIdx)
    (hrlast : rnd.getLastD 0 = sepIdx) :
    (corruptSentence act ori ori rnd clsIdx sepIdx maskIdx).length = ori.length ∧
    (corruptSentence act ori ori rnd clsIdx sepIdx maskIdx).headD 0 = clsIdx ∧
    (corruptSentence act ori ori rnd clsIdx sepIdx maskIdx).getLastD 0 = sepIdx := by
  cases act with
  | keepOriginal => exact ⟨rfl, hhead, hlast⟩
  | maskWhole =>
    simp only [corruptSentence]
    have hL : ori.length - 1 ≠ 0 := by omega
    have hlenM : (((List.replicate ori.length maskIdx).set 0 clsIdx).set
        (ori.length - 1) sepIdx).length = ori.length := by simp
    refine ⟨hlenM, ?_, ?_⟩
    · rw [List.headD_eq_head?_getD, List.head?_eq_getElem?,
        List.getElem?_set_ne hL,
        List.getElem?_set_self (by rw [List.length_replicate]; omega)]
      rfl
    · rw [List.getLastD_eq_getLast?, List.getLast?_eq_getElem?, hlenM,
        List.getElem?_set_self (by rw [List.length_set, List.length_replicate]; omega)]
      rfl
  | replaceRandom =>
    simp only [corruptSentence, lengthAdjust]
    by_cases hgt : ori.length < rnd.length
    · rw [if_pos hgt]
      have htklen : (rnd.take (ori.length - 1)).length = ori.length - 1 := by
        rw [List.length_take]
        omega
      refine ⟨?_, ?_, ?_⟩
      · simp only [List.length_append, htklen, List.length_cons, List.length_nil]
        omega
      · rw [List.headD_eq_head?_getD, List.head?_eq_getElem?,
          List.getElem?_append_left (by rw [htklen]; omega),
          List.getElem?_take_of_lt (by omega : (0 : ℕ) < ori.length - 1),
          ← List.head?_eq_getElem?, ← List.headD_eq_head?_getD]
        exact hrhead
      · rw [List.getLastD_eq_getLast?, List.getLast?_concat]
        exact hrlast
    · rw [if_neg hgt]
      by_cases hlt : rnd.length < ori.length
      · rw [if_pos hlt]
        have hdl : rnd.dropLast.length = rnd.length - 1 := List.length_dropLast rnd
        refine ⟨?_, ?_, ?_⟩
        · simp only [List.length_append, hdl, List.length_replicate,
            List.length_cons, List.length_nil]
          omega
        · rw [List.headD_eq_head?_getD, List.head?_eq_getElem?,
            List.getElem?_append_left (by
              rw [List.length_append, hdl, List.length_replicate]
              omega),
            List.getElem?_append_left (by rw [hdl]; omega),
            List.getElem?_dropLast, if_pos (by omega : (0 : ℕ) < rnd.length - 1),
            ← List.head?_eq_getElem?, ← List.headD_eq_head?_getD]
          exact hrhead
        · rw [List.getLastD_eq_getLast?, List.getLast?_concat]
          rfl
      · rw [if_neg hlt]
        exact ⟨by omega, hrhead, hrlast⟩

/-! ### Characterisation of the greedy flattening loops -/

theorem flattenGreedy_eq (budget : ℕ) :
    ∀ (sents : List (List ℕ)) (doc cpos : List ℕ),
      flattenGreedy budget sents doc cpos =
        (doc ++ ((sents.take (keepCount budget (sents.map List.length) doc.length)).flatten),
         cpos ++ posList doc.length
           ((sents.take (keepCount budget (sents.map List.length) doc.length)).map
             List.length)) := by
  intro sents
  induction sents with
  | nil => intro doc cpos; simp [flattenGreedy, keepCount, posList]
  | cons s rest ih =>
    intro doc cpos
    simp only [flattenGreedy, List.map_cons, keepCount]
    by_cases h : doc.length + s.length ≤ budget
    · rw [if_pos h, if_pos h, ih]
      simp only [List.take_succ_cons, List.flatten_cons, List.map_cons, posList,
        List.length_append]
      rw [List.append_assoc, List.append_assoc]
      rfl
    · rw [if_neg h, if_neg h]
      simp [posList]

theorem posList_length (lens : List ℕ) : ∀ b, (posList b lens).length = lens.length := by
  induction lens with
  | nil => intro b; rfl
  | cons l rest ih => intro b; simp [posList, ih]

theorem posList_getD (lens : List ℕ) :
    ∀ (b j : ℕ), j < lens.length →
      (posList b lens).getD j 0 = b + (lens.take j).sum := by
  induction lens with
  | nil => intro b j hj; simp at hj
  | cons l rest ih =>
    intro b j hj
    cases j with
    | zero => simp [posList]
    | succ j =>
      simp only [posList, List.getD_cons_succ, List.take_succ_cons, List.sum_cons]
      rw [ih (b + l) j (by simpa using hj)]
      omega

theorem sum_take_lt_sum_take (lens : List ℕ) :
    ∀ (j j2 : ℕ), j < j2 → j2 ≤ lens.length → (∀ l ∈ lens, 1 ≤ l) →
      (lens.take j).sum < (lens.take j2).sum := by
  induction lens with
  | nil =>
    intro j j2 h1 h2 _
    simp at h2
    omega
  | cons l rest ih =>
    intro j j2 h1 h2 hpos
    cases j2 with
    | zero => omega
    | succ j2 =>
      cases j with
      | zero =>
        simp only [List.take_zero, List.sum_nil, List.take_succ_cons, List.sum_cons]
        have hl : 1 ≤ l := hpos l (List.mem_cons_self _ _)
        omega
      | succ j =>
        simp only [List.take_succ_cons, List.sum_cons]
        have := ih j j2 (by omega) (by simpa using h2)
          (fun x hx => hpos x (List.mem_cons_of_mem _ hx))
        omega

theorem sum_take_lt_sum (lens : List ℕ) (j : ℕ) (hj : j < lens.length)
    (hpos : ∀ l ∈ lens, 1 ≤ l) :
    (lens.take j).sum < lens.sum := by
  have h := sum_take_lt_sum_take lens j lens.length hj le_rfl hpos
  rwa [List.take_length] at h

theorem flatten_getD_prefix_sum (kept : List (List ℕ)) :
    ∀ j, j < kept.length → (∀ s ∈ kept, s ≠ []) →
      kept.flatten.getD (((kept.map List.length).take j).sum) 0 =
        (kept.getD j []).headD 0 := by
  induction kept with
  | nil => intro j hj _; simp at hj
  | cons s rest ih =>
    intro j hj hne
    cases j with
    | zero =>
      simp only [List.take_zero, List.map_nil, List.sum_nil, List.flatten_cons,
        List.getD_cons_zero]
      have hs : s ≠ [] := hne s (List.mem_cons_self _ _)
      cases s with
      | nil => exact absurd rfl hs
      | cons a t => simp
    | succ j =>
      simp only [List.map_cons, List.take_succ_cons, List.sum_cons, List.flatten_cons,
        List.getD_cons_succ]
      rw [List.getD_eq_getElem?_getD,
        List.getElem?_append_right
          (by omega : s.length ≤ s.length + ((rest.map List.length).take j).sum)]
      have hsub : s.length + ((rest.map List.length).take j).sum - s.length =
          ((rest.map List.length).take j).sum := by omega
      rw [hsub, ← List.getD_eq_getElem?_getD]
      exact ih j (by simpa using hj) (fun x hx => hne x (List.mem_cons_of_mem _ hx))

/-- C5: in the batch built by the permutation-path tensorizer from
per-document sentence lists (each sentence non-empty and starting with the
class token, as `create_src_tok_batch` guarantees), for every document `i`
and every `j < nsents[i]`, the token at offset `cls_pos[i, j]` of row `i` is
exactly the class id marking the start of the `j`-th kept sentence; the
`cls_pos` entries of a document are strictly increasing and are strictly
bounded by the document's flattened length. -/
theorem getD_map_of_lt {α β : Type} (f : α → β) (l : List α) (i : ℕ)
    (hi : i < l.length) (d : α) (d' : β) :
    (l.map f).getD i d' = f (l.getD i d) := by
  rw [List.getD_eq_getElem?_getD, List.getElem?_map, List.getElem?_eq_getElem hi,
    List.getD_eq_getElem?_getD, List.getElem?_eq_getElem hi]
  rfl

theorem getD_mem_of_lt {α : Type} (l : List α) (i : ℕ) (hi : i < l.length) (d : α) :
    l.getD i d ∈ l := by
  rw [List.getD_eq_getElem?_getD, List.getElem?_eq_getElem hi]
  exact List.getElem_mem hi

theorem c5_cls_pos_marks_class_tokens (budget padIdx sepId clsIdx : ℕ)
    (sentss : List (List (List ℕ)))
    (hinv : ∀ sents ∈ sentss, ∀ sent ∈ sents, sent ≠ [] ∧ sent.headD 0 = clsIdx) :
    ∀ i, i < sentss.length →
      ∀ j, j < (permTensorOf budget padIdx sepId sentss).nsents.getD i 0 →
        (((permTensorOf budget padIdx sepId sentss).srcTokens.getD i []).getD
          (((permTensorOf budget padIdx sepId sentss).cpos.getD i []).getD j 0) 0 = clsIdx) ∧
        (((permTensorOf budget padIdx sepId sentss).cpos.getD i []).getD j 0 <
          (flattenGreedy budget (sentss.getD i []) [] []).1.length) ∧
        (∀ j2, j < j2 → j2 < (permTensorOf budget padIdx sepId sentss).nsents.getD i 0 →
          ((permTensorOf budget padIdx sepId sentss).cpos.getD i []).getD j 0 <
            ((permTensorOf budget padIdx sepId sentss).cpos.getD i []).getD j2 0) := by
  intro i hi
  have hflat : flattenGreedy budget (sentss.getD i []) [] [] =
      (((sentss.getD i []).take
          (keepCount budget ((sentss.getD i []).map List.length) 0)).flatten,
       posList 0 (((sentss.getD i []).take
          (keepCount budget ((sentss.getD i []).map List.length) 0)).map List.length)) := by
    rw [flattenGreedy_eq]
    simp
  have hkeptinv : ∀ s ∈ (sentss.getD i []).take
      (keepCount budget ((sentss.getD i []).map List.length) 0),
      s ≠ [] ∧ s.headD 0 = clsIdx := by
    intro s hs
    exact hinv (sentss.getD i []) (getD_mem_of_lt sentss i hi []) s
      ((List.take_sublist _ _).mem hs)
  have hlens_pos : ∀ l ∈ ((sentss.getD i []).take
      (keepCount budget ((sentss.getD i []).map List.length) 0)).map List.length, 1 ≤ l := by
    intro l hl
    rcases List.mem_map.mp hl with ⟨s, hs, rfl⟩
    have hne := (hkeptinv s hs).1
    cases s with
    | nil => exact absurd rfl hne
    | cons a t => simp
  have hdlen : (sentss.map (fun s => flattenGreedy budget s [] [])).length = sentss.length :=
    List.length_map _ _
  have hfd : (sentss.map (fun s => flattenGreedy budget s [] [])).getD i ([], []) =
      flattenGreedy budget (sentss.getD i []) [] [] :=
    getD_map_of_lt _ _ i hi [] ([], [])
  have hnsentsrow : (permTensorOf budget padIdx sepId sentss).nsents.getD i 0 =
      (((sentss.getD i []).take
        (keepCount budget ((sentss.getD i []).map List.length) 0)).map List.length).length := by
    show ((sentss.map (fun s => flattenGreedy budget s [] [])).map
        (fun (d : List ℕ × List ℕ) => d.2.length)).getD i 0 = _
    rw [getD_map_of_lt _ _ i (by rw [hdlen]; exact hi) ([], []) 0, hfd, hflat]
    exact posList_length _ 0
  have hcposrow : ∀ j, j < (permTensorOf budget padIdx sepId sentss).nsents.getD i 0 →
      ((permTensorOf budget padIdx sepId sentss).cpos.getD i []).getD j 0 =
        ((((sentss.getD i []).take
          (keepCount budget ((sentss.getD i []).map List.length) 0)).map
            List.length).take j).sum := by
    intro j hj
    rw [hnsentsrow] at hj
    have hstep : ((permTensorOf budget padIdx sepId sentss).cpos.getD i []).getD j 0 =
        ((flattenGreedy budget (sentss.getD i []) [] []).2 ++
          List.replicate
            (listMax ((sentss.map (fun s => flattenGreedy budget s [] [])).map
                (fun (d : List ℕ × List ℕ) => d.2.length)) -
              (flattenGreedy budget (sentss.getD i []) [] []).2.length) 0).getD j 0 := by
      show (((sentss.map (fun s => flattenGreedy budget s [] [])).map
          (fun (d : List ℕ × List ℕ) => d.2 ++ List.replicate
            (listMax ((sentss.map (fun s => flattenGreedy budget s [] [])).map
                (fun (d2 : List ℕ × List ℕ) => d2.2.length)) - d.2.length) 0)).getD i []).getD j 0 = _
      rw [getD_map_of_lt _ _ i (by rw [hdlen]; exact hi) ([], []) [], hfd]
    rw [hstep, List.getD_eq_getElem?_getD,
      List.getElem?_append_left (by
        rw [hflat]
        show j < (posList 0 _).length
        rw [posList_length]
        exact hj),
      ← List.getD_eq_getElem?_getD, hflat]
    show (posList 0 _).getD j 0 = _
    rw [posList_getD _ 0 j hj]
    exact Nat.zero_add _
  intro j hj
  have hj' : j < (((sentss.getD i []).take
      (keepCount budget ((sentss.getD i []).map List.length) 0)).map List.length).length := by
    rw [← hnsentsrow]
    exact hj
  have hjk : j < ((sentss.getD i []).take
      (keepCount budget ((sentss.getD i []).map List.length) 0)).length := by
    rw [List.length_map] at hj'
    exact hj'
  have hqlt : ((((sentss.getD i []).take
      (keepCount budget ((sentss.getD i []).map List.length) 0)).map List.length).take j).sum <
      (((sentss.getD i []).take
        (keepCount budget ((sentss.getD i []).map List.length) 0)).map List.length).sum :=
    sum_take_lt_sum _ j hj' hlens_pos
  refine ⟨?_, ?_, ?_⟩
  · rw [hcposrow j hj]
    have hsrcstep : (permTensorOf budget padIdx sepId sentss).srcTokens.getD i [] =
        (flattenGreedy budget (sentss.getD i []) [] []).1 ++
          List.replicate
            (listMax ((sentss.map (fun s => flattenGreedy budget s [] [])).map
                (fun (d : List ℕ × List ℕ) => d.1.length)) -
              (flattenGreedy budget (sentss.getD i []) [] []).1.length) padIdx := by
      show ((sentss.map (fun s => flattenGreedy budget s [] [])).map
          (fun (d : List ℕ × List ℕ) => d.1 ++ List.replicate
            (listMax ((sentss.map (fun s => flattenGreedy budget s [] [])).map
                (fun (d2 : List ℕ × List ℕ) => d2.1.length)) - d.1.length) padIdx)).getD i [] = _
      rw [getD_map_of_lt _ _ i (by rw [hdlen]; exact hi) ([], []) [], hfd]
    rw [hsrcstep, List.getD_eq_getElem?_getD,
      List.getElem?_append_left (by
        rw [hflat]
        show _ < ((sentss.getD i []).take
          (keepCount budget ((sentss.getD i []).map List.length) 0)).flatten.length
        rw [List.length_flatten]
        exact hqlt),
      ← List.getD_eq_getElem?_getD, hflat]
    show (((sentss.getD i []).take
        (keepCount budget ((sentss.getD i []).map List.length) 0)).flatten).getD _ 0 = clsIdx
    rw [flatten_getD_prefix_sum _ j hjk (fun s hs => (hkeptinv s hs).1)]
    exact (hkeptinv _ (getD_mem_of_lt _ j hjk [])).2
  · rw [hcposrow j hj, hflat]
    show _ < (((sentss.getD i []).take
      (keepCount budget ((sentss.getD i []).map List.length) 0)).flatten).length
    rw [List.length_flatten]
    exact hqlt
  · intro j2 hjj2 hj2
    rw [hcposrow j hj, hcposrow j2 hj2]
    refine sum_take_lt_sum_take _ j j2 hjj2 ?_ hlens_pos
    rw [hnsentsrow] at hj2
    omega

/-! ### Properties of the masked-target tensorization -/

theorem le_foldl_max (l : List ℕ) : ∀ b, b ≤ l.foldl max b := by
  induction l with
  | nil => intro b; exact le_rfl
  | cons x rest ih =>
    intro b
    exact le_trans (le_max_left b x) (ih (max b x))

theorem le_foldl_max_of_mem (l : List ℕ) : ∀ (b x : ℕ), x ∈ l → x ≤ l.foldl max b := by
  induction l with
  | nil => intro b x hx; simp at hx
  | cons y rest ih =>
    intro b x hx
    rcases List.mem_cons.mp hx with h | h
    · subst h
      exact le_trans (le_max_right b x) (le_foldl_max rest (max b x))
    · exact ih (max b y) x h

theorem le_listMax_of_mem {l : List ℕ} {x : ℕ} (hx : x ∈ l) : x ≤ listMax l :=
  le_foldl_max_of_mem l 0 x hx

theorem tensor3Row_rows (w pad cls : ℕ) (full : List ℕ)
    (h2 : 2 ≤ full.length) (hw : full.length ≤ w) :
    (tensor3Row w pad cls full).1 =
      cls :: (full.tail.dropLast ++ List.replicate (w - full.tail.length) pad) ∧
    (tensor3Row w pad cls full).2 =
      full.tail ++ List.replicate (w - full.tail.length) pad := by
  have hw1 : 1 ≤ w := by omega
  have hbase : (List.replicate w pad).set 0 cls = cls :: List.replicate (w - 1) pad := by
    cases w with
    | zero => omega
    | succ w => simp [List.replicate_succ]
  have htail : full.tail.length = full.length - 1 := List.length_tail full
  constructor
  · show sliceAssign ((List.replicate w pad).set 0 cls) 1 full.tail.dropLast = _
    unfold sliceAssign
    rw [hbase]
    have htake : (cls :: List.replicate (w - 1) pad).take 1 = [cls] := by
      simp
    have hdrop : (cls :: List.replicate (w - 1) pad).drop (1 + full.tail.dropLast.length) =
        List.replicate (w - full.tail.length) pad := by
      have hdl : full.tail.dropLast.length = full.length - 2 := by
        rw [List.length_dropLast, htail]
        omega
      rw [hdl]
      cases w with
      | zero => omega
      | succ w =>
        rw [show 1 + (full.length - 2) = (full.length - 2) + 1 from by omega]
        rw [List.drop_succ_cons, List.drop_replicate]
        congr 1
        omega
    rw [htake, hdrop]
    rfl
  · show sliceAssign (List.replicate w pad) 0 full.tail = _
    unfold sliceAssign
    rw [List.take_zero, List.drop_replicate, List.nil_append]
    congr 2
    omega

theorem maskedSents2tensor_eq_some (docsSel : List (List ℕ))
    (docsMasked : List (List (List ℕ))) (padIdx clsIdx sepIdx : ℕ)
    (hbsz : ¬ docsSel.length = 0)
    (hlen : docsSel.length = docsMasked.length)
    (hpair : ∀ k, k < docsMasked.length →
      (docsSel.getD k []).length = (docsMasked.getD k []).length)
    (hnonempty : ∀ ms ∈ docsMasked, ¬ ms = [])
    (hsent : ∀ ms ∈ docsMasked, ∀ sent ∈ ms,
      2 ≤ sent.length ∧ sent.headD 0 = clsIdx ∧ sent.getLastD 0 = sepIdx) :
    maskedSents2tensor docsSel docsMasked padIdx clsIdx sepIdx =
      some { tgtSelectedIndexes := docsSel.map (fun sel =>
               sel ++ List.replicate
                 (listMax (docsSel.map (fun sel2 => sel2.length)) - sel.length) 0)
           , tgtInputMaskedSents := docsMasked.map (fun ms =>
               ms.map (fun s => (tensor3Row
                   (listMax (docsMasked.map (fun ms2 => listMax (ms2.map (fun s2 => s2.length)))))
                   padIdx clsIdx s).1) ++
                 List.replicate (listMax (docsSel.map (fun sel2 => sel2.length)) - ms.length)
                   ((List.replicate
                     (listMax (docsMasked.map (fun ms2 => listMax (ms2.map (fun s2 => s2.length)))))
                     padIdx).set 0 clsIdx))
           , tgtMaskedSents := docsMasked.map (fun ms =>
               ms.map (fun s => (tensor3Row
                   (listMax (docsMasked.map (fun ms2 => listMax (ms2.map (fun s2 => s2.length)))))
                   padIdx clsIdx s).2) ++
                 List.replicate (listMax (docsSel.map (fun sel2 => sel2.length)) - ms.length)
                   (List.replicate
                     (listMax (docsMasked.map (fun ms2 => listMax (ms2.map (fun s2 => s2.length)))))
                     padIdx)) } := by
  have hmapeq : docsMasked.map (fun ms => ms.length) = docsSel.map (fun sel => sel.length) := by
    apply List.ext_getElem
    · rw [List.length_map, List.length_map, hlen]
    · intro k h1 h2
      rw [List.length_map] at h1
      rw [List.getElem_map, List.getElem_map]
      have hk := hpair k h1
      rw [List.getD_eq_getElem?_getD, List.getD_eq_getElem?_getD,
        List.getElem?_eq_getElem (by omega : k < docsSel.length),
        List.getElem?_eq_getElem h1] at hk
      simpa using hk.symm
  have hg2 : ¬ (docsMasked.any (fun ms => decide (ms.length = 0)) = true) := by
    rw [List.any_eq_true]
    rintro ⟨ms, hms, hdec⟩
    rw [decide_eq_true_eq] at hdec
    exact hnonempty ms hms (List.eq_nil_of_length_eq_zero hdec)
  have hg3 : ¬ (listMax (docsMasked.map (fun ms => ms.length)) ≠
      listMax (docsSel.map (fun sel => sel.length))) := by
    rw [hmapeq]
    exact fun h => h rfl
  have hg4 : ¬ (docsMasked.any (fun ms => ms.any (fun sent =>
      !(sent.headD 0 == clsIdx) || !(sent.tail.getLastD 0 == sepIdx))) = true) := by
    rw [List.any_eq_true]
    rintro ⟨ms, hms, hin⟩
    rw [List.any_eq_true] at hin
    rcases hin with ⟨sent, hsm, hbad⟩
    rcases hsent ms hms sent hsm with ⟨hl2, hhd, hlast⟩
    have htl : sent.tail.getLastD 0 = sent.getLastD 0 := by
      cases sent with
      | nil => simp at hl2
      | cons a t =>
        cases t with
        | nil => simp at hl2
        | cons b t2 =>
          rw [List.tail_cons, List.getLastD_eq_getLast?, List.getLastD_eq_getLast?,
            List.getLast?_cons_cons]
    rw [hhd, htl, hlast] at hbad
    simp at hbad
  unfold maskedSents2tensor
  rw [if_neg hbsz, if_neg hg2, if_neg hg3, if_neg hg4]

/-- C6: for per-document pairs of sorted selected indexes and original
sentences (each sentence of the pool carrying the class/separator frame),
`masked_sents2tensor` succeeds, and for every document `i` and target ordinal
`j` the teacher-forcing input row is the target sentence (the original
sentence after its class token) shifted right by one position — a leading
class token inserted and the trailing token dropped — while the target row is
that full sentence including the trailing separator; both rows are padded to
the batch-wide width with the dictionary pad id. -/
theorem c6_masked_sents2tensor_rows (docsSel : List (List ℕ))
    (docsMasked : List (List (List ℕ))) (padIdx clsIdx sepIdx : ℕ)
    (hbsz : ¬ docsSel.length = 0)
    (hlen : docsSel.length = docsMasked.length)
    (hpair : ∀ k, k < docsMasked.length →
      (docsSel.getD k []).length = (docsMasked.getD k []).length)
    (hnonempty : ∀ ms ∈ docsMasked, ¬ ms = [])
    (hsent : ∀ ms ∈ docsMasked, ∀ sent ∈ ms,
      2 ≤ sent.length ∧ sent.headD 0 = clsIdx ∧ sent.getLastD 0 = sepIdx) :
    ∃ mt, maskedSents2tensor docsSel docsMasked padIdx clsIdx sepIdx = some mt ∧
      ∀ i j, i < docsMasked.length → j < (docsMasked.getD i []).length →
        (mt.tgtInputMaskedSents.getD i []).getD j [] =
          clsIdx :: (((docsMasked.getD i []).getD j []).tail.dropLast ++
            List.replicate
              (listMax (docsMasked.map (fun ms2 => listMax (ms2.map (fun s2 => s2.length)))) -
                ((docsMasked.getD i []).getD j []).tail.length) padIdx) ∧
        (mt.tgtMaskedSents.getD i []).getD j [] =
          ((docsMasked.getD i []).getD j []).tail ++
            List.replicate
              (listMax (docsMasked.map (fun ms2 => listMax (ms2.map (fun s2 => s2.length)))) -
                ((docsMasked.getD i []).getD j []).tail.length) padIdx := by
  have hsome := maskedSents2tensor_eq_some docsSel docsMasked padIdx clsIdx sepIdx
    hbsz hlen hpair hnonempty hsent
  refine ⟨_, hsome, ?_⟩
  intro i j hi hj
  have hms : (docsMasked.getD i []) ∈ docsMasked := getD_mem_of_lt docsMasked i hi []
  have hsget : ((docsMasked.getD i []).getD j []) ∈ docsMasked.getD i [] :=
    getD_mem_of_lt _ j hj []
  rcases hsent _ hms _ hsget with ⟨hl2, hhd, hlast⟩
  have hwbound : ((docsMasked.getD i []).getD j []).length ≤
      listMax (docsMasked.map (fun ms2 => listMax (ms2.map (fun s2 => s2.length)))) := by
    have hb1 : ((docsMasked.getD i []).getD j []).length ≤
        listMax ((docsMasked.getD i []).map (fun s2 => s2.length)) :=
      le_listMax_of_mem (List.mem_map.mpr ⟨_, hsget, rfl⟩)
    have hb2 : listMax ((docsMasked.getD i []).map (fun s2 => s2.length)) ≤
        listMax (docsMasked.map (fun ms2 => listMax (ms2.map (fun s2 => s2.length)))) :=
      le_listMax_of_mem (List.mem_map.mpr ⟨_, hms, rfl⟩)
    exact le_trans hb1 hb2
  have hrows := tensor3Row_rows
    (listMax (docsMasked.map (fun ms2 => listMax (ms2.map (fun s2 => s2.length)))))
    padIdx clsIdx ((docsMasked.getD i []).getD j []) hl2 hwbound
  have hjmap : j < ((docsMasked.getD i []).map (fun s => (tensor3Row
      (listMax (docsMasked.map (fun ms2 => listMax (ms2.map (fun s2 => s2.length)))))
      padIdx clsIdx s).1)).length := by
    rw [List.length_map]
    exact hj
  have hjmap2 : j < ((docsMasked.getD i []).map (fun s => (tensor3Row
      (listMax (docsMasked.map (fun ms2 => listMax (ms2.map (fun s2 => s2.length)))))
      padIdx clsIdx s).2)).length := by
    rw [List.length_map]
    exact hj
  constructor
  · rw [show (({ tgtSelectedIndexes := _, tgtInputMaskedSents := _, tgtMaskedSents := _ } :
        MaskedTensors)).tgtInputMaskedSents = _ from rfl]
    rw [getD_map_of_lt _ docsMasked i hi [] [], List.getD_eq_getElem?_getD,
      List.getElem?_append_left hjmap, ← List.getD_eq_getElem?_getD,
      getD_map_of_lt _ _ j hj [] [], hrows.1]
  · rw [show (({ tgtSelectedIndexes := _, tgtInputMaskedSents := _, tgtMaskedSents := _ } :
        MaskedTensors)).tgtMaskedSents = _ from rfl]
    rw [getD_map_of_lt _ docsMasked i hi [] [], List.getD_eq_getElem?_getD,
      List.getElem?_append_left hjmap2, ← List.getD_eq_getElem?_getD,
      getD_map_of_lt _ _ j hj [] [], hrows.2]

/-- C5 witness: a one-document batch with two sentences; at `i = 0`, `j = 0`
the class position indexes the class token, is bounded by the document
length, and precedes every later class position. -/
theorem c5_cls_pos_marks_class_tokens_witness :
    (((permTensorOf 100 0 2 [[[3, 5, 2], [3, 6, 2]]]).srcTokens.getD 0 []).getD
      (((permTensorOf 100 0 2 [[[3, 5, 2], [3, 6, 2]]]).cpos.getD 0 []).getD 0 0) 0 = 3) ∧
    (((permTensorOf 100 0 2 [[[3, 5, 2], [3, 6, 2]]]).cpos.getD 0 []).getD 0 0 <
      (flattenGreedy 100 ([[[3, 5, 2], [3, 6, 2]]].getD 0 []) [] []).1.length) ∧
    (∀ j2, 0 < j2 → j2 < (permTensorOf 100 0 2 [[[3, 5, 2], [3, 6, 2]]]).nsents.getD 0 0 →
      ((permTensorOf 100 0 2 [[[3, 5, 2], [3, 6, 2]]]).cpos.getD 0 []).getD 0 0 <
        ((permTensorOf 100 0 2 [[[3, 5, 2], [3, 6, 2]]]).cpos.getD 0 []).getD j2 0) :=
  c5_cls_pos_marks_class_tokens 100 0 2 3 [[[3, 5, 2], [3, 6, 2]]]
    (by decide) 0 (by decide) 0 (by decide)

/-- C6 witness: one document, one selected sentence `[3, 7, 2]` (class 3,
separator 2, pad 0): the tensorization succeeds and produces the stated
teacher-forcing and target rows. -/
theorem c6_masked_sents2tensor_rows_witness :
    ∃ mt, maskedSents2tensor [[1]] [[[3, 7, 2]]] 0 3 2 = some mt ∧
      ∀ i j, i < ([[[3, 7, 2]]] : List (List (List ℕ))).length →
        j < (([[[3, 7, 2]]] : List (List (List ℕ))).getD i []).length →
        (mt.tgtInputMaskedSents.getD i []).getD j [] =
          3 :: (((([[[3, 7, 2]]] : List (List (List ℕ))).getD i []).getD j []).tail.dropLast ++
            List.replicate
              (listMax (([[[3, 7, 2]]] : List (List (List ℕ))).map
                  (fun ms2 => listMax (ms2.map (fun s2 => s2.length)))) -
                ((([[[3, 7, 2]]] : List (List (List ℕ))).getD i []).getD j []).tail.length) 0) ∧
        (mt.tgtMaskedSents.getD i []).getD j [] =
          ((([[[3, 7, 2]]] : List (List (List ℕ))).getD i []).getD j []).tail ++
            List.replicate
              (listMax (([[[3, 7, 2]]] : List (List (List ℕ))).map
                  (fun ms2 => listMax (ms2.map (fun s2 => s2.length)))) -
                ((([[[3, 7, 2]]] : List (List (List ℕ))).getD i []).getD j []).tail.length) 0 :=
  c6_masked_sents2tensor_rows [[1]] [[[3, 7, 2]]] 0 3 2
    (by decide) (by decide) (by decide) (by decide) (by decide)

/-! ### Agreement of the two per-sample preparations -/

theorem prepSents_eq (cfg : Config) (h : cfg.maxDocLength ≠ some 0) (src : List ℕ) :
    prepSentsPerm cfg src = prepSentsMask cfg src := by
  unfold prepSentsPerm prepSentsMask
  cases hmd : cfg.maxDocLength with
  | none => rfl
  | some k =>
    cases k with
    | zero => exact absurd hmd h
    | succ k => simp

theorem retained_eq (cfg : Config) (h : cfg.maxDocLength ≠ some 0)
    (samples : List (List ℕ)) :
    retainedPerm cfg samples = retainedMask cfg samples := by
  unfold retainedPerm retainedMask
  have hmap : samples.map (prepSentsPerm cfg) = samples.map (prepSentsMask cfg) :=
    List.map_congr_left (fun s _ => prepSents_eq cfg h s)
  rw [hmap]

/-! ### Characterisation of the remaining budgeted loops -/

theorem truncateSents_eq (budget : ℕ) :
    ∀ (sents acc : List (List ℕ)),
      truncateSents budget sents acc =
        acc ++ sents.take (keepCount budget (sents.map List.length)
          ((acc.map List.length).sum)) := by
  intro sents
  induction sents with
  | nil => intro acc; simp [truncateSents, keepCount]
  | cons s rest ih =>
    intro acc
    simp only [truncateSents, List.map_cons, keepCount]
    by_cases h : (acc.map List.length).sum + s.length ≤ budget
    · rw [if_pos h, if_pos h, ih]
      have hsum : ((acc ++ [s]).map List.length).sum =
          (acc.map List.length).sum + s.length := by
        simp
      rw [hsum, List.take_succ_cons, List.append_assoc]
      rfl
    · rw [if_neg h, if_neg h]
      simp

theorem getDocsTruncAux_eq (budget : ℕ) :
    ∀ (sents : List (List ℕ)) (doc cpos : List ℕ) (ds : List (List ℕ)),
      getDocsTruncAux budget sents doc cpos ds =
        (doc ++ ((sents.take (keepCount budget (sents.map List.length) doc.length)).flatten),
         cpos ++ posList doc.length
           ((sents.take (keepCount budget (sents.map List.length) doc.length)).map
             List.length),
         ds ++ sents.take (keepCount budget (sents.map List.length) doc.length)) := by
  intro sents
  induction sents with
  | nil => intro doc cpos ds; simp [getDocsTruncAux, keepCount, posList]
  | cons s rest ih =>
    intro doc cpos ds
    simp only [getDocsTruncAux, List.map_cons, keepCount]
    by_cases h : doc.length + s.length ≤ budget
    · rw [if_pos h, if_pos h, ih]
      simp only [List.take_succ_cons, List.flatten_cons, List.map_cons, posList,
        List.length_append]
      rw [List.append_assoc, List.append_assoc, List.append_assoc]
      rfl
    · rw [if_neg h, if_neg h]
      simp [posList]

theorem flattenDoc_eq :
    ∀ (sents : List (List ℕ)) (doc cpos : List ℕ),
      flattenDoc sents doc cpos =
        (doc ++ sents.flatten, cpos ++ posList doc.length (sents.map List.length)) := by
  intro sents
  induction sents with
  | nil => intro doc cpos; simp [flattenDoc, posList]
  | cons s rest ih =>
    intro doc cpos
    simp only [flattenDoc, List.flatten_cons, List.map_cons, posList]
    rw [ih]
    simp only [List.length_append]
    rw [List.append_assoc, List.append_assoc]
    rfl

theorem keepCount_le_length (budget : ℕ) :
    ∀ (lens : List ℕ) (t : ℕ), keepCount budget lens t ≤ lens.length := by
  intro lens
  induction lens with
  | nil => intro t; simp [keepCount]
  | cons l rest ih =>
    intro t
    simp only [keepCount, List.length_cons]
    by_cases h : t + l ≤ budget
    · rw [if_pos h]
      exact Nat.succ_le_succ (ih (t + l))
    · rw [if_neg h]
      omega

theorem keepCount_all (budget : ℕ) :
    ∀ (lens : List ℕ) (t : ℕ), t + lens.sum ≤ budget →
      keepCount budget lens t = lens.length := by
  intro lens
  induction lens with
  | nil => intro t _; rfl
  | cons l rest ih =>
    intro t h
    simp only [List.sum_cons] at h
    simp only [keepCount, List.length_cons]
    rw [if_pos (by omega), ih (t + l) (by omega)]

theorem keepCount_pos (budget : ℕ) (l : ℕ) (rest : List ℕ) (t : ℕ)
    (h : t + l ≤ budget) : 1 ≤ keepCount budget (l :: rest) t := by
  simp only [keepCount]
  rw [if_pos h]
  omega

theorem kept_sum_le (budget : ℕ) :
    ∀ (lens : List ℕ) (t : ℕ), t ≤ budget →
      t + (lens.take (keepCount budget lens t)).sum ≤ budget := by
  intro lens
  induction lens with
  | nil => intro t h; simpa [keepCount] using h
  | cons l rest ih =>
    intro t h
    simp only [keepCount]
    by_cases hc : t + l ≤ budget
    · rw [if_pos hc]
      simp only [List.take_succ_cons, List.sum_cons]
      have := ih (t + l) hc
      omega
    · rw [if_neg hc]
      simpa using h

/-! ### The scatter write-back fills every slot -/

theorem applyOrder_length (n : ℕ) (ord : List ℕ) (sents : List (List ℕ)) :
    (applyOrder n ord sents).length = n := by
  unfold applyOrder
  rw [List.length_map, scatterAssign_length, List.length_replicate]

theorem applyOrder_perm (n : ℕ) (ord : List ℕ) (sents : List (List ℕ))
    (hord : ord.Perm (List.range n)) (hn : n ≤ sents.length) :
    (applyOrder n ord sents).Perm (sents.take n) := by
  unfold applyOrder
  have hnodup : ord.Nodup := (hord.nodup_iff).mpr (List.nodup_range n)
  have hbnd : ∀ i ∈ ord, i < (List.replicate n (none : Option (List ℕ))).length := by
    intro i hi
    rw [List.length_replicate]
    exact List.mem_range.mp (hord.mem_iff.mp hi)
  have hvlen : ((sents.take n).map some).length = ord.length := by
    rw [List.length_map, List.length_take, hord.length_eq, List.length_range]
    omega
  have hmain := scatterAssign_perm (none : Option (List ℕ)) ord
    (List.replicate n none) ((sents.take n).map some) hnodup hbnd hvlen
  rw [List.length_replicate] at hmain
  have hfe : (List.range n).filter (fun j => decide (j ∉ ord)) = [] := by
    rw [List.filter_eq_nil_iff]
    intro a ha
    simp only [decide_eq_true_eq, Decidable.not_not]
    exact hord.mem_iff.mpr ha
  rw [hfe, List.map_nil, List.nil_append] at hmain
  have hstep := hmain.map (fun (o : Option (List ℕ)) => o.getD [])
  refine hstep.trans ?_
  rw [List.map_map]
  have : ((fun (o : Option (List ℕ)) => o.getD []) ∘ some) = id := by
    funext x
    rfl
  rw [this, List.map_id]

theorem applyOrder_getD_fixed (n : ℕ) (ord : List ℕ) (sents : List (List ℕ)) (i : ℕ)
    (hord : ord.Perm (List.range n)) (hfix : ord.getD i 0 = i) (hi : i < n)
    (hn : n ≤ sents.length) :
    (applyOrder n ord sents).getD i [] = sents.getD i [] := by
  unfold applyOrder
  have hnodup : ord.Nodup := (hord.nodup_iff).mpr (List.nodup_range n)
  have hordlen : ord.length = n := by
    rw [hord.length_eq, List.length_range]
  have hvlen : ((sents.take n).map some).length = ord.length := by
    rw [List.length_map, List.length_take, hordlen]
    omega
  have hw := scatterAssign_getD_written (none : Option (List ℕ)) ord
    (List.replicate n none) ((sents.take n).map some) hnodup hvlen i
    (by omega) (by rw [hfix, List.length_replicate]; exact hi)
  rw [hfix] at hw
  have hslen : (scatterAssign (List.replicate n (none : Option (List ℕ))) ord
      ((sents.take n).map some)).length = n := by
    rw [scatterAssign_length, List.length_replicate]
  rw [getD_map_of_lt _ _ i (by rw [hslen]; exact hi) none [], hw,
    getD_map_of_lt _ _ i (by rw [List.length_take]; omega) [] none]
  rw [List.getD_eq_getElem?_getD, List.getElem?_take_of_lt hi,
    ← List.getD_eq_getElem?_getD]
  rfl

/-- Sequencing a per-index `Option` computation succeeds elementwise. -/
theorem mapM_eq_some_map {α β : Type} (f : α → Option β) (g : α → β) :
    ∀ (l : List α), (∀ a ∈ l, f a = some (g a)) → l.mapM f = some (l.map g) := by
  intro l
  induction l with
  | nil => intro _; rfl
  | cons a rest ih =>
    intro h
    rw [List.mapM_cons, h a (List.mem_cons_self _ _), ih (fun x hx => h x (List.mem_cons_of_mem _ hx))]
    rfl

/-! ### Stats of the corruption loop -/

theorem getD_set_self_of_lt {α : Type} (l : List α) (i : ℕ) (v d : α)
    (hi : i < l.length) : (l.set i v).getD i d = v := by
  rw [List.getD_eq_getElem?_getD, List.getElem?_set_self hi]
  rfl

theorem getD_set_ne' {α : Type} (l : List α) (i j : ℕ) (v d : α) (h : i ≠ j) :
    (l.set i v).getD j d = l.getD j d := by
  rw [List.getD_eq_getElem?_getD, List.getElem?_set_ne h, ← List.getD_eq_getElem?_getD]

theorem sum_set (L : List ℕ) :
    ∀ (i x : ℕ), i < L.length → (L.set i x).sum + L.getD i 0 = L.sum + x := by
  induction L with
  | nil => intro i x hi; simp at hi
  | cons l rest ih =>
    intro i x hi
    cases i with
    | zero => simp [List.set_cons_zero]; omega
    | succ i =>
      rw [List.set_cons_succ]
      simp only [List.sum_cons, List.getD_cons_succ]
      have := ih i x (by simpa using hi)
      omega

theorem corruptSentence_length (act : CorruptAction) (cur ori rnd : List ℕ)
    (cls sep mask : ℕ) (hcur : cur.length = ori.length) (hone : 1 ≤ ori.length)
    (hrne : act = CorruptAction.replaceRandom → 1 ≤ rnd.length) :
    (corruptSentence act cur ori rnd cls sep mask).length = ori.length := by
  cases act with
  | keepOriginal => rfl
  | maskWhole =>
    simp only [corruptSentence, List.length_set, List.length_replicate]
    exact hcur
  | replaceRandom =>
    have hr := hrne rfl
    simp only [corruptSentence, lengthAdjust]
    by_cases hgt : ori.length < rnd.length
    · rw [if_pos hgt]
      rw [List.length_append, List.length_take]
      simp only [List.length_cons, List.length_nil]
      omega
    · rw [if_neg hgt]
      by_cases hlt : rnd.length < ori.length
      · rw [if_pos hlt]
        rw [List.length_append, List.length_append, List.length_dropLast,
          List.length_replicate]
        simp only [List.length_cons, List.length_nil]
        omega
      · rw [if_neg hlt]
        omega

theorem corrupt_foldl_stats (cfg : Config) (act : ℕ → CorruptAction)
    (rnd : ℕ → List ℕ) (doc : List (List ℕ)) :
    ∀ (ps : List (ℕ × ℕ)) (od ms : List (List ℕ)),
      (ps.map Prod.snd).Nodup →
      (∀ p ∈ ps, p.2 < od.length ∧ od.getD p.2 [] = doc.getD p.2 [] ∧
        1 ≤ (doc.getD p.2 []).length ∧
        (act p.1 = CorruptAction.replaceRandom → 1 ≤ (rnd p.1).length)) →
      (ps.foldl (fun (st : List (List ℕ) × List (List ℕ)) (p : ℕ × ℕ) =>
          (st.1.set p.2
            (corruptSentence (act p.1) (st.1.getD p.2 []) (doc.getD p.2 [])
              (rnd p.1) cfg.clsIdx cfg.sepId cfg.maskIdx),
           st.2 ++ [doc.getD p.2 []])) (od, ms)).1.length = od.length ∧
      ((ps.foldl (fun (st : List (List ℕ) × List (List ℕ)) (p : ℕ × ℕ) =>
          (st.1.set p.2
            (corruptSentence (act p.1) (st.1.getD p.2 []) (doc.getD p.2 [])
              (rnd p.1) cfg.clsIdx cfg.sepId cfg.maskIdx),
           st.2 ++ [doc.getD p.2 []])) (od, ms)).1.map List.length).sum =
        (od.map List.length).sum ∧
      (ps.foldl (fun (st : List (List ℕ) × List (List ℕ)) (p : ℕ × ℕ) =>
          (st.1.set p.2
            (corruptSentence (act p.1) (st.1.getD p.2 []) (doc.getD p.2 [])
              (rnd p.1) cfg.clsIdx cfg.sepId cfg.maskIdx),
           st.2 ++ [doc.getD p.2 []])) (od, ms)).2 =
        ms ++ ps.map (fun p => doc.getD p.2 []) := by
  intro ps
  induction ps with
  | nil =>
    intro od ms _ _
    refine ⟨rfl, rfl, ?_⟩
    simp
  | cons p ps ih =>
    intro od ms hnd hcond
    rcases hcond p (List.mem_cons_self _ _) with ⟨hlt, hod, hone, hrne⟩
    simp only [List.foldl_cons]
    have hvlen : (corruptSentence (act p.1) (od.getD p.2 []) (doc.getD p.2 [])
        (rnd p.1) cfg.clsIdx cfg.sepId cfg.maskIdx).length = (doc.getD p.2 []).length :=
      corruptSentence_length _ _ _ _ _ _ _ (by rw [hod]) hone hrne
    have hnd2 : (ps.map Prod.snd).Nodup := by
      rw [List.map_cons] at hnd
      exact List.Nodup.of_cons hnd
    have hp2notin : p.2 ∉ ps.map Prod.snd := by
      rw [List.map_cons] at hnd
      exact List.Nodup.not_mem hnd
    have hcond2 : ∀ q ∈ ps,
        q.2 < (od.set p.2 (corruptSentence (act p.1) (od.getD p.2 []) (doc.getD p.2 [])
            (rnd p.1) cfg.clsIdx cfg.sepId cfg.maskIdx)).length ∧
        (od.set p.2 (corruptSentence (act p.1) (od.getD p.2 []) (doc.getD p.2 [])
            (rnd p.1) cfg.clsIdx cfg.sepId cfg.maskIdx)).getD q.2 [] = doc.getD q.2 [] ∧
        1 ≤ (doc.getD q.2 []).length ∧
        (act q.1 = CorruptAction.replaceRandom → 1 ≤ (rnd q.1).length) := by
      intro q hq
      rcases hcond q (List.mem_cons_of_mem _ hq) with ⟨h1, h2, h3, h4⟩
      have hne : p.2 ≠ q.2 := by
        intro he
        exact hp2notin (he ▸ List.mem_map_of_mem Prod.snd hq)
      refine ⟨by rw [List.length_set]; exact h1, ?_, h3, h4⟩
      rw [getD_set_ne' _ _ _ _ _ hne]
      exact h2
    have hres := ih (od.set p.2 (corruptSentence (act p.1) (od.getD p.2 [])
        (doc.getD p.2 []) (rnd p.1) cfg.clsIdx cfg.sepId cfg.maskIdx))
      (ms ++ [doc.getD p.2 []]) hnd2 hcond2
    refine ⟨?_, ?_, ?_⟩
    · rw [hres.1, List.length_set]
    · rw [hres.2.1, List.map_set]
      have hset := sum_set (od.map List.length) p.2
        ((corruptSentence (act p.1) (od.getD p.2 []) (doc.getD p.2 [])
          (rnd p.1) cfg.clsIdx cfg.sepId cfg.maskIdx).length)
        (by rw [List.length_map]; exact hlt)
      have hfx : (od.map List.length).getD p.2 0 =
          (corruptSentence (act p.1) (od.getD p.2 []) (doc.getD p.2 [])
            (rnd p.1) cfg.clsIdx cfg.sepId cfg.maskIdx).length := by
        rw [getD_map_of_lt List.length od p.2 hlt [] 0, hvlen, hod]
      omega
    · rw [hres.2.2, List.map_cons, List.append_assoc]
      rfl

theorem corruptLoop_stats (cfg : Config) (act : ℕ → CorruptAction)
    (rnd : ℕ → List ℕ) (doc : List (List ℕ)) (od : List (List ℕ)) (sel : List ℕ)
    (hnd : sel.Nodup)
    (hcond : ∀ i ∈ sel, i < od.length ∧ od.getD i [] = doc.getD i [] ∧
      1 ≤ (doc.getD i []).length)
    (hrne : ∀ j, j < sel.length → act j = CorruptAction.replaceRandom →
      1 ≤ (rnd j).length) :
    (corruptLoop cfg act rnd doc od sel).1.length = od.length ∧
    ((corruptLoop cfg act rnd doc od sel).1.map List.length).sum =
      (od.map List.length).sum ∧
    (corruptLoop cfg act rnd doc od sel).2 = sel.map (fun i => doc.getD i []) := by
  unfold corruptLoop
  have hmain := corrupt_foldl_stats cfg act rnd doc sel.enum od []
    (by rw [List.enum_map_snd]; exact hnd)
    (by
      intro p hp
      have hp2 : p.2 ∈ sel := by
        rw [← List.enum_map_snd sel]
        exact List.mem_map_of_mem Prod.snd hp
      have hp1 : p.1 < sel.length := by
        have := List.mem_enum_iff_getElem?.mp hp
        have := List.getElem?_eq_some_iff.mp this
        exact this.1
      rcases hcond p.2 hp2 with ⟨h1, h2, h3⟩
      exact ⟨h1, h2, h3, hrne p.1 hp1⟩)
  refine ⟨hmain.1, hmain.2.1, ?_⟩
  rw [hmain.2.2, List.nil_append]
  have : sel.enum.map (fun p => doc.getD p.2 []) =
      (sel.enum.map Prod.snd).map (fun i => doc.getD i []) := by
    rw [List.map_map]
    rfl
  rw [this, List.enum_map_snd]

/-! ### Per-document stats of the masking path -/

theorem maskSentencesDoc_eq (cfg : Config) (mo : MaskOracle)
    (pool : List (List (List ℕ))) (index : ℕ) :
    maskSentencesDoc cfg mo pool index =
      ((corruptLoop cfg (mo.act index)
          (fun j => getRndSent pool (mo.rndDocIdx index j) (mo.rndSentIdx index j))
          (pool.getD index [])
          (innerShuffle cfg (mo.gate index) (mo.innerPerm index) (pool.getD index [])
            ((mo.candiShuffle index).take (numPreds cfg.minPredictionsPerDoc
              cfg.maxPredictionsPerDoc (mo.candiShuffle index).length cfg.maskedSentProb)))
          (selectedIndexesOf cfg.minPredictionsPerDoc cfg.maxPredictionsPerDoc
            cfg.maskedSentProb (mo.candiShuffle index))).1,
       selectedIndexesOf cfg.minPredictionsPerDoc cfg.maxPredictionsPerDoc
         cfg.maskedSentProb (mo.candiShuffle index),
       (corruptLoop cfg (mo.act index)
          (fun j => getRndSent pool (mo.rndDocIdx index j) (mo.rndSentIdx index j))
          (pool.getD index [])
          (innerShuffle cfg (mo.gate index) (mo.innerPerm index) (pool.getD index [])
            ((mo.candiShuffle index).take (numPreds cfg.minPredictionsPerDoc
              cfg.maxPredictionsPerDoc (mo.candiShuffle index).length cfg.maskedSentProb)))
          (selectedIndexesOf cfg.minPredictionsPerDoc cfg.maxPredictionsPerDoc
            cfg.maskedSentProb (mo.candiShuffle index))).2) := rfl

theorem truncateSents_all (budget : ℕ) (doc : List (List ℕ))
    (hsum : (doc.map List.length).sum ≤ budget) :
    truncateSents budget doc [] = doc := by
  rw [truncateSents_eq]
  simp only [List.map_nil, List.sum_nil, List.nil_append]
  rw [keepCount_all budget _ 0 (by simpa using hsum), List.length_map, List.take_length]

theorem maskSentencesDoc_stats (cfg : Config) (mo : MaskOracle)
    (pool : List (List (List ℕ))) (index : ℕ)
    (hsum : ((pool.getD index []).map List.length).sum ≤ cfg.maxTokensLen)
    (hinv : ∀ sent ∈ pool.getD index [], 1 ≤ sent.length)
    (hcandi : (mo.candiShuffle index).Perm (List.range (pool.getD index []).length))
    (hinner : mo.gate index = true → (mo.innerPerm index).Perm (npDelete
      (List.range (truncateSents cfg.maxTokensLen (pool.getD index []) []).length)
      ((mo.candiShuffle index).take (numPreds cfg.minPredictionsPerDoc
        cfg.maxPredictionsPerDoc (mo.candiShuffle index).length cfg.maskedSentProb))))
    (hrnd : ∀ j, j < numPreds cfg.minPredictionsPerDoc cfg.maxPredictionsPerDoc
        (mo.candiShuffle index).length cfg.maskedSentProb →
      mo.act index j = CorruptAction.replaceRandom →
      1 ≤ (getRndSent pool (mo.rndDocIdx index j) (mo.rndSentIdx index j)).length) :
    (maskSentencesDoc cfg mo pool index).1.length = (pool.getD index []).length ∧
    ((maskSentencesDoc cfg mo pool index).1.map List.length).sum =
      ((pool.getD index []).map List.length).sum ∧
    (maskSentencesDoc cfg mo pool index).2.1 = selectedIndexesOf
      cfg.minPredictionsPerDoc cfg.maxPredictionsPerDoc cfg.maskedSentProb
      (mo.candiShuffle index) ∧
    (maskSentencesDoc cfg mo pool index).2.2 =
      (selectedIndexesOf cfg.minPredictionsPerDoc cfg.maxPredictionsPerDoc
        cfg.maskedSentProb (mo.candiShuffle index)).map
        (fun i => (pool.getD index []).getD i []) := by
  have hts : truncateSents cfg.maxTokensLen (pool.getD index []) [] = pool.getD index [] :=
    truncateSents_all _ _ hsum
  have hcnd : (mo.candiShuffle index).Nodup :=
    (hcandi.nodup_iff).mpr (List.nodup_range _)
  have hselnd : ((mo.candiShuffle index).take (numPreds cfg.minPredictionsPerDoc
      cfg.maxPredictionsPerDoc (mo.candiShuffle index).length cfg.maskedSentProb)).Nodup :=
    (List.take_sublist _ _).nodup hcnd
  have hselmem : ∀ i ∈ (mo.candiShuffle index).take (numPreds cfg.minPredictionsPerDoc
      cfg.maxPredictionsPerDoc (mo.candiShuffle index).length cfg.maskedSentProb),
      i < (pool.getD index []).length := by
    intro i hi
    have := (List.take_sublist _ _).mem hi
    exact List.mem_range.mp (hcandi.mem_iff.mp this)
  have hsortperm : (selectedIndexesOf cfg.minPredictionsPerDoc cfg.maxPredictionsPerDoc
      cfg.maskedSentProb (mo.candiShuffle index)).Perm
      ((mo.candiShuffle index).take (numPreds cfg.minPredictionsPerDoc
        cfg.maxPredictionsPerDoc (mo.candiShuffle index).length cfg.maskedSentProb)) := by
    unfold selectedIndexesOf
    exact List.mergeSort_perm _ _
  have hsortnd : (selectedIndexesOf cfg.minPredictionsPerDoc cfg.maxPredictionsPerDoc
      cfg.maskedSentProb (mo.candiShuffle index)).Nodup :=
    (hsortperm.nodup_iff).mpr hselnd
  have hsortmem : ∀ i ∈ selectedIndexesOf cfg.minPredictionsPerDoc
      cfg.maxPredictionsPerDoc cfg.maskedSentProb (mo.candiShuffle index),
      i < (pool.getD index []).length := by
    intro i hi
    exact hselmem i (hsortperm.mem_iff.mp hi)
  have hsortlen : (selectedIndexesOf cfg.minPredictionsPerDoc cfg.maxPredictionsPerDoc
      cfg.maskedSentProb (mo.candiShuffle index)).length ≤
      numPreds cfg.minPredictionsPerDoc cfg.maxPredictionsPerDoc
        (mo.candiShuffle index).length cfg.maskedSentProb := by
    rw [hsortperm.length_eq, List.length_take]
    omega
  -- the shuffled document
  have hos : innerShuffle cfg (mo.gate index) (mo.innerPerm index) (pool.getD index [])
      ((mo.candiShuffle index).take (numPreds cfg.minPredictionsPerDoc
        cfg.maxPredictionsPerDoc (mo.candiShuffle index).length cfg.maskedSentProb)) =
      if mo.gate index then
        applyOrder (pool.getD index []).length
          (targetOrderFixed (pool.getD index []).length
            ((mo.candiShuffle index).take (numPreds cfg.minPredictionsPerDoc
              cfg.maxPredictionsPerDoc (mo.candiShuffle index).length cfg.maskedSentProb))
            (mo.innerPerm index))
          (pool.getD index [])
      else pool.getD index [] := by
    unfold innerShuffle
    rw [hts]
  have hodfacts : (innerShuffle cfg (mo.gate index) (mo.innerPerm index)
        (pool.getD index [])
        ((mo.candiShuffle index).take (numPreds cfg.minPredictionsPerDoc
          cfg.maxPredictionsPerDoc (mo.candiShuffle index).length
          cfg.maskedSentProb))).length = (pool.getD index []).length ∧
      ((innerShuffle cfg (mo.gate index) (mo.innerPerm index) (pool.getD index [])
        ((mo.candiShuffle index).take (numPreds cfg.minPredictionsPerDoc
          cfg.maxPredictionsPerDoc (mo.candiShuffle index).length
          cfg.maskedSentProb))).map List.length).sum =
        ((pool.getD index []).map List.length).sum ∧
      ∀ i ∈ selectedIndexesOf cfg.minPredictionsPerDoc cfg.maxPredictionsPerDoc
          cfg.maskedSentProb (mo.candiShuffle index),
        (innerShuffle cfg (mo.gate index) (mo.innerPerm index) (pool.getD index [])
          ((mo.candiShuffle index).take (numPreds cfg.minPredictionsPerDoc
            cfg.maxPredictionsPerDoc (mo.candiShuffle index).length
            cfg.maskedSentProb))).getD i [] = (pool.getD index []).getD i [] := by
    rw [hos]
    by_cases hg : mo.gate index
    · rw [if_pos hg]
      have hperm := targetOrderFixed_perm (pool.getD index []).length
        ((mo.candiShuffle index).take (numPreds cfg.minPredictionsPerDoc
          cfg.maxPredictionsPerDoc (mo.candiShuffle index).length cfg.maskedSentProb))
        (mo.innerPerm index) (by
          have := hinner hg
          rwa [hts] at this)
      have happ := applyOrder_perm (pool.getD index []).length _ (pool.getD index [])
        hperm le_rfl
      rw [List.take_length] at happ
      refine ⟨applyOrder_length _ _ _, ?_, ?_⟩
      · exact List.Perm.sum_eq (happ.map List.length)
      · intro i hi
        refine applyOrder_getD_fixed _ _ _ i hperm ?_ (hsortmem i hi) le_rfl
        exact targetOrderFixed_fixed_point _ _ _ i (hsortperm.mem_iff.mp hi)
          (hsortmem i hi)
    · rw [if_neg hg]
      exact ⟨rfl, rfl, fun i _ => rfl⟩
  have hloop := corruptLoop_stats cfg (mo.act index)
    (fun j => getRndSent pool (mo.rndDocIdx index j) (mo.rndSentIdx index j))
    (pool.getD index [])
    (innerShuffle cfg (mo.gate index) (mo.innerPerm index) (pool.getD index [])
      ((mo.candiShuffle index).take (numPreds cfg.minPredictionsPerDoc
        cfg.maxPredictionsPerDoc (mo.candiShuffle index).length cfg.maskedSentProb)))
    (selectedIndexesOf cfg.minPredictionsPerDoc cfg.maxPredictionsPerDoc
      cfg.maskedSentProb (mo.candiShuffle index))
    hsortnd
    (by
      intro i hi
      refine ⟨?_, hodfacts.2.2 i hi, ?_⟩
      · rw [hodfacts.1]
        exact hsortmem i hi
      · have hmem : (pool.getD index []).getD i [] ∈ pool.getD index [] :=
          getD_mem_of_lt _ i (hsortmem i hi) []
        exact hinv _ hmem)
    (fun j hj hact => hrnd j (by omega) hact)
  rw [maskSentencesDoc_eq]
  refine ⟨?_, ?_, rfl, ?_⟩
  · rw [hloop.1, hodfacts.1]
  · rw [hloop.2.1, hodfacts.2.1]
  · exact hloop.2.2

/-! ### The sentence-frame invariant established by the preparations -/

theorem getLastD_default_irrel (t : List ℕ) (h : t ≠ []) (a b : ℕ) :
    t.getLastD a = t.getLastD b := by
  cases t with
  | nil => exact absurd rfl h
  | cons x rest =>
    rw [List.getLastD_eq_getLast?, List.getLastD_eq_getLast?, List.getLast?_cons]
    rfl

theorem getLastD_cons_ne_nil (a d : ℕ) (t : List ℕ) (h : t ≠ []) :
    (a :: t).getLastD d = t.getLastD d := by
  rw [List.getLastD_cons]
  exact getLastD_default_irrel t h a d

theorem splitList_getD_sep (lst : List ℕ) (key : ℕ) (j : ℕ)
    (hj : j + 1 < (splitList lst key).length) :
    ((splitList lst key).getD j []).getLastD 0 = key := by
  have hjd : j < (splitList lst key).dropLast.length := by
    rw [List.length_dropLast]
    omega
  have hmem : (splitList lst key).dropLast.getD j [] ∈ (splitList lst key).dropLast :=
    getD_mem_of_lt _ j hjd []
  have hsep := splitListAux_dropLast_getLast key lst [] _ hmem
  have heq : (splitList lst key).getD j [] = (splitList lst key).dropLast.getD j [] := by
    rw [List.getD_eq_getElem?_getD, List.getD_eq_getElem?_getD,
      List.getElem?_dropLast, if_pos (by omega)]
  rw [heq, List.getLastD_eq_getLast?, hsep]
  rfl

theorem capSent_ne_nil (m sepId : ℕ) (sent : List ℕ) (h : sent ≠ []) :
    capSent m sepId sent ≠ [] := by
  unfold capSent
  by_cases hc : sent.length ≤ m
  · rw [if_pos hc]; exact h
  · rw [if_neg hc]; simp

theorem capSent_length_le (m sepId : ℕ) (sent : List ℕ) (hm : 1 ≤ m) :
    (capSent m sepId sent).length ≤ m := by
  unfold capSent
  by_cases hc : sent.length ≤ m
  · rw [if_pos hc]; exact hc
  · rw [if_neg hc]
    rw [List.length_append, List.length_take]
    simp only [List.length_cons, List.length_nil]
    omega

theorem capSent_getLastD (m sepId : ℕ) (sent : List ℕ)
    (h : sent.getLastD 0 = sepId) : (capSent m sepId sent).getLastD 0 = sepId := by
  unfold capSent
  by_cases hc : sent.length ≤ m
  · rw [if_pos hc]; exact h
  · rw [if_neg hc, List.getLastD_eq_getLast?, List.getLast?_concat]
    rfl

theorem prepSentsMask_trim_sub (cfg : Config) (src : List ℕ) :
    ∃ k : ℕ, (match cfg.maxDocLength with
      | none => splitList src cfg.sepId
      | some k2 => (splitList src cfg.sepId).take k2) =
        (splitList src cfg.sepId).take k := by
  cases cfg.maxDocLength with
  | none =>
    refine ⟨(splitList src cfg.sepId).length, ?_⟩
    rw [List.take_length]
  | some k2 => exact ⟨k2, rfl⟩

theorem prepSentsMask_shape (cfg : Config) (src : List ℕ) :
    ∀ sent ∈ prepSentsMask cfg src,
      2 ≤ sent.length ∧ sent.length ≤ cfg.maxSentLen + 2 ∧
        sent.headD 0 = cfg.clsIdx ∧ sent.tail ≠ [] := by
  intro sent hmem
  unfold prepSentsMask at hmem
  rcases List.mem_map.mp hmem with ⟨t, ht, rfl⟩
  rcases List.mem_map.mp ht with ⟨s0, hs0, rfl⟩
  have hs0mem : s0 ∈ splitList src cfg.sepId := by
    rcases prepSentsMask_trim_sub cfg src with ⟨k, hk⟩
    rw [hk] at hs0
    exact (List.take_sublist _ _).mem hs0
  have hs0ne : s0 ≠ [] := splitListAux_ne_nil cfg.sepId src [] s0 hs0mem
  have hcapne : capSent (cfg.maxSentLen + 1) cfg.sepId s0 ≠ [] :=
    capSent_ne_nil _ _ _ hs0ne
  have hcaplen : (capSent (cfg.maxSentLen + 1) cfg.sepId s0).length ≤ cfg.maxSentLen + 1 :=
    capSent_length_le _ _ _ (by omega)
  have hcappos : 1 ≤ (capSent (cfg.maxSentLen + 1) cfg.sepId s0).length := by
    cases hcc : capSent (cfg.maxSentLen + 1) cfg.sepId s0 with
    | nil => exact absurd hcc hcapne
    | cons a t => simp
  refine ⟨?_, ?_, ?_, ?_⟩
  · simp only [List.length_cons]
    omega
  · simp only [List.length_cons]
    omega
  · rfl
  · simpa using hcapne

theorem prepSentsMask_getD_sep (cfg : Config) (src : List ℕ) (j : ℕ)
    (hj : j + 1 < (prepSentsMask cfg src).length) :
    ((prepSentsMask cfg src).getD j []).getLastD 0 = cfg.sepId := by
  unfold prepSentsMask at hj ⊢
  rcases prepSentsMask_trim_sub cfg src with ⟨k, hk⟩
  rw [hk] at hj ⊢
  rw [List.length_map, List.length_map] at hj
  have hjtk : j < ((splitList src cfg.sepId).take k).length := by omega
  have hjl : j < (splitList src cfg.sepId).length := by
    rw [List.length_take] at hjtk
    omega
  have hjk : j < k := by
    rw [List.length_take] at hjtk
    omega
  rw [getD_map_of_lt _ _ j (by rw [List.length_map]; exact hjtk) [] [],
    getD_map_of_lt _ _ j hjtk [] []]
  have hgetTake : ((splitList src cfg.sepId).take k).getD j [] =
      (splitList src cfg.sepId).getD j [] := by
    rw [List.getD_eq_getElem?_getD, List.getElem?_take_of_lt hjk,
      ← List.getD_eq_getElem?_getD]
  rw [hgetTake]
  have hs0mem : (splitList src cfg.sepId).getD j [] ∈ splitList src cfg.sepId :=
    getD_mem_of_lt _ j hjl []
  have hs0ne : (splitList src cfg.sepId).getD j [] ≠ [] :=
    splitListAux_ne_nil cfg.sepId src [] _ hs0mem
  have hcapne : capSent (cfg.maxSentLen + 1) cfg.sepId
      ((splitList src cfg.sepId).getD j []) ≠ [] := capSent_ne_nil _ _ _ hs0ne
  rw [getLastD_cons_ne_nil _ _ _ hcapne]
  apply capSent_getLastD
  have hjsplit : j + 1 < (splitList src cfg.sepId).length := by
    rw [List.length_take] at hj
    omega
  exact splitList_getD_sep src cfg.sepId j hjsplit

theorem getLastD_mem_of_ne_nil {α : Type} (l : List α) (h : l ≠ []) (d : α) :
    l.getLastD d ∈ l := by
  have hlen : 1 ≤ l.length := by
    cases l with
    | nil => exact absurd rfl h
    | cons a t => simp
  rw [List.getLastD_eq_getLast?, List.getLast?_eq_getElem?,
    List.getElem?_eq_getElem (by omega : l.length - 1 < l.length)]
  exact List.getElem_mem _

theorem fixLastSep_mem_shape (sepId : ℕ) (l : List (List ℕ)) :
    ∀ s ∈ fixLastSep sepId l, s ∈ l ∨ ∃ t, t ∈ l ∧ s = t ++ [sepId] := by
  intro s hs
  unfold fixLastSep at hs
  by_cases hnil : l = []
  · rw [if_pos hnil] at hs
    exact Or.inl hs
  · rw [if_neg hnil] at hs
    by_cases hsep : (l.getLastD []).getLastD 0 ≠ sepId
    · rw [if_pos hsep] at hs
      rcases List.mem_append.mp hs with h | h
      · exact Or.inl (List.dropLast_subset _ h)
      · rw [List.mem_singleton] at h
        exact Or.inr ⟨l.getLastD [], getLastD_mem_of_ne_nil l hnil [], h⟩
    · rw [if_neg hsep] at hs
      exact Or.inl hs

theorem fixLastSep_ne_nil (sepId : ℕ) (l : List (List ℕ)) (h : l ≠ []) :
    fixLastSep sepId l ≠ [] := by
  unfold fixLastSep
  rw [if_neg h]
  by_cases hsep : (l.getLastD []).getLastD 0 ≠ sepId
  · rw [if_pos hsep]
    simp
  · rw [if_neg hsep]
    exact h

theorem fixLastSep_all_sep (sepId : ℕ) (l : List (List ℕ))
    (hP : ∀ j, j + 1 < l.length → (l.getD j []).getLastD 0 = sepId) :
    ∀ s ∈ fixLastSep sepId l, s.getLastD 0 = sepId := by
  intro s hs
  unfold fixLastSep at hs
  by_cases hnil : l = []
  · rw [if_pos hnil, hnil] at hs
    simp at hs
  · rw [if_neg hnil] at hs
    have hllen : 1 ≤ l.length := by
      cases l with
      | nil => exact absurd rfl hnil
      | cons a t => simp
    by_cases hsep : (l.getLastD []).getLastD 0 ≠ sepId
    · rw [if_pos hsep] at hs
      rcases List.mem_append.mp hs with h | h
      · rcases List.mem_iff_getElem.mp h with ⟨j, hjlen, hj⟩
        have hjd : j + 1 < l.length := by
          rw [List.length_dropLast] at hjlen
          omega
        have hconv : l.dropLast[j] = l.getD j [] := by
          rw [List.getElem_dropLast, List.getD_eq_getElem?_getD,
            List.getElem?_eq_getElem (by omega : j < l.length)]
          rfl
        rw [← hj, hconv]
        exact hP j hjd
      · rw [List.mem_singleton] at h
        subst h
        rw [List.getLastD_eq_getLast?, List.getLast?_concat]
        rfl
    · rw [if_neg hsep] at hs
      rw [Decidable.not_not] at hsep
      rcases List.mem_iff_getElem.mp hs with ⟨j, hjlen, hj⟩
      by_cases hjd : j + 1 < l.length
      · have hconv : l[j] = l.getD j [] := by
          rw [List.getD_eq_getElem?_getD, List.getElem?_eq_getElem hjlen]
          rfl
        rw [← hj, hconv]
        exact hP j hjd
      · have hjeq : j = l.length - 1 := by omega
        have hlast : l[j] = l.getLastD [] := by
          rw [List.getLastD_eq_getLast?, List.getLast?_eq_getElem?,
            List.getElem?_eq_getElem (by omega : l.length - 1 < l.length)]
          subst hjeq
          rfl
        rw [← hj, hlast]
        exact hsep

/-- Every retained document of the masking path is non-empty, and each of
its sentences carries the class/separator frame with bounded length — the
invariant behind the `assert sent[-1] == sep_id` of `get_docs` and the
asserts of `masked_sents2tensor`. -/
theorem retained_sentence_invariant (cfg : Config) (samples : List (List ℕ)) :
    ∀ s ∈ retainedMask cfg samples,
      s ≠ [] ∧ ∀ sent ∈ s, 2 ≤ sent.length ∧ sent.length ≤ cfg.maxSentLen + 3 ∧
        sent.headD 0 = cfg.clsIdx ∧ sent.getLastD 0 = cfg.sepId := by
  intro s hs
  unfold retainedMask at hs
  rcases List.mem_map.mp hs with ⟨s0, hs0, rfl⟩
  rcases List.mem_filter.mp hs0 with ⟨hs0map, hs0ne⟩
  rcases List.mem_map.mp hs0map with ⟨src, _, rfl⟩
  have hs0ne' : prepSentsMask cfg src ≠ [] := by
    intro hnil
    rw [hnil] at hs0ne
    simp at hs0ne
  constructor
  · exact fixLastSep_ne_nil _ _ hs0ne'
  · intro sent hsent
    have hlast : sent.getLastD 0 = cfg.sepId := by
      refine fixLastSep_all_sep cfg.sepId _ ?_ sent hsent
      intro j hj
      exact prepSentsMask_getD_sep cfg src j hj
    rcases fixLastSep_mem_shape cfg.sepId _ sent hsent with h | ⟨t, ht, rfl⟩
    · rcases prepSentsMask_shape cfg src sent h with ⟨h1, h2, h3, _⟩
      exact ⟨h1, by omega, h3, hlast⟩
    · rcases prepSentsMask_shape cfg src t ht with ⟨h1, h2, h3, _⟩
      have htne : t ≠ [] := by
        intro hnil
        rw [hnil] at h1
        simp at h1
      refine ⟨?_, ?_, ?_, hlast⟩
      · rw [List.length_append]
        simp only [List.length_cons, List.length_nil]
        omega
      · rw [List.length_append]
        simp only [List.length_cons, List.length_nil]
        omega
      · cases t with
        | nil => exact absurd rfl htne
        | cons a t2 => simpa using h3

/-- C4 witness: the substitution branch on original `[3, 7, 7, 2]` with a
shorter sibling `[3, 8, 2]` (class id 3, separator 2, mask 4) keeps length 4,
class head and separator tail. -/
theorem c4_corruption_preserves_structure_witness :
    (corruptSentence CorruptAction.replaceRandom [3, 7, 7, 2] [3, 7, 7, 2] [3, 8, 2]
      3 2 4).length = ([3, 7, 7, 2] : List ℕ).length ∧
    (corruptSentence CorruptAction.replaceRandom [3, 7, 7, 2] [3, 7, 7, 2] [3, 8, 2]
      3 2 4).headD 0 = 3 ∧
    (corruptSentence CorruptAction.replaceRandom [3, 7, 7, 2] [3, 7, 7, 2] [3, 8, 2]
      3 2 4).getLastD 0 = 2 :=
  c4_corruption_preserves_structure CorruptAction.replaceRandom [3, 7, 7, 2] [3, 8, 2]
    3 2 4 (by decide) (by decide) (by decide) (by decide) (by decide) (by decide)

/-! ### Field views of the shared tensorizer body -/

theorem docs2tensor_docPadMask (docs : List (List ℕ × List ℕ)) (pad sep : ℕ) :
    (docs2tensor docs pad sep).docPadMask =
      (docs.map (fun d => d.2.length)).map (fun m =>
        List.replicate m false ++
        List.replicate (listMax (docs.map (fun d => d.2.length)) - m) true) := by
  show docs.map (fun d =>
      List.replicate d.2.length false ++
      List.replicate (listMax (docs.map (fun d => d.2.length)) - d.2.length) true) = _
  rw [List.map_map]
  rfl

theorem docs2tensor_segmentIds (docs : List (List ℕ × List ℕ)) (pad sep : ℕ) :
    (docs2tensor docs pad sep).segmentIds =
      (docs.map (fun d => d.1.length)).map (fun _ =>
        List.replicate (listMax (docs.map (fun d => d.1.length))) 0) := by
  show docs.map (fun _ =>
      List.replicate (listMax (docs.map (fun d => d.1.length))) 0) = _
  rw [List.map_map]
  rfl

theorem docs2tensor_nsents (docs : List (List ℕ × List ℕ)) (pad sep : ℕ) :
    (docs2tensor docs pad sep).nsents = docs.map (fun d => d.2.length) := rfl

/-- The three cross-checked tensors depend on the documents only through the
per-document flat length and sentence count. -/
theorem docs2tensor_meta_congr (docs1 docs2 : List (List ℕ × List ℕ))
    (pad1 pad2 sep1 sep2 : ℕ)
    (h1 : docs1.map (fun d => d.1.length) = docs2.map (fun d => d.1.length))
    (h2 : docs1.map (fun d => d.2.length) = docs2.map (fun d => d.2.length)) :
    (docs2tensor docs1 pad1 sep1).docPadMask = (docs2tensor docs2 pad2 sep2).docPadMask ∧
    (docs2tensor docs1 pad1 sep1).segmentIds = (docs2tensor docs2 pad2 sep2).segmentIds ∧
    (docs2tensor docs1 pad1 sep1).nsents = (docs2tensor docs2 pad2 sep2).nsents := by
  refine ⟨?_, ?_, ?_⟩
  · rw [docs2tensor_docPadMask, docs2tensor_docPadMask, h2]
  · rw [docs2tensor_segmentIds, docs2tensor_segmentIds, h1]
  · rw [docs2tensor_nsents, docs2tensor_nsents, h2]

/-! ### The retained-document list has one entry per sample -/

theorem splitList_ne_nil (src : List ℕ) (key : ℕ) (h : src ≠ []) :
    splitList src key ≠ [] := by
  intro hnil
  have hfl := splitListAux_flatten key src []
  unfold splitList at hnil
  rw [hnil] at hfl
  simp only [List.flatten_nil, List.nil_append] at hfl
  exact h hfl.symm

theorem prepSentsMask_ne_nil (cfg : Config) (src : List ℕ) (hsrc : src ≠ [])
    (hmd : cfg.maxDocLength ≠ some 0) : prepSentsMask cfg src ≠ [] := by
  unfold prepSentsMask
  intro hnil
  rw [List.map_eq_nil_iff, List.map_eq_nil_iff] at hnil
  cases hmdl : cfg.maxDocLength with
  | none =>
    rw [hmdl] at hnil
    exact splitList_ne_nil src cfg.sepId hsrc hnil
  | some k =>
    rw [hmdl] at hnil
    have hk : k ≠ 0 := by
      intro h0
      exact hmd (by rw [hmdl, h0])
    rcases List.take_eq_nil_iff.mp hnil with h | h
    · exact hk h
    · exact splitList_ne_nil src cfg.sepId hsrc h

theorem retainedMask_length (cfg : Config) (samples : List (List ℕ))
    (hsrc : ∀ s ∈ samples, s ≠ []) (hmd : cfg.maxDocLength ≠ some 0) :
    (retainedMask cfg samples).length = samples.length := by
  unfold retainedMask
  rw [List.length_map]
  have hself : (samples.map (prepSentsMask cfg)).filter (fun s => !s.isEmpty) =
      samples.map (prepSentsMask cfg) := by
    rw [List.filter_eq_self]
    intro a ha
    rcases List.mem_map.mp ha with ⟨src, hsm, rfl⟩
    have hnn := prepSentsMask_ne_nil cfg src (hsrc src hsm) hmd
    rcases List.exists_cons_of_ne_nil hnn with ⟨a, t, heq⟩
    rw [heq]
    rfl
  rw [hself, List.length_map]

theorem getDocsTruncAux_ds (budget : ℕ) (sents : List (List ℕ)) :
    (getDocsTruncAux budget sents [] [] []).2.2 =
      sents.take (keepCount budget (sents.map List.length) 0) := by
  rw [getDocsTruncAux_eq]
  simp

theorem getD_map_range {α : Type} (f : ℕ → α) (P k : ℕ) (hk : k < P) (d : α) :
    ((List.range P).map f).getD k d = f k := by
  rw [getD_map_of_lt f (List.range P) k (by simpa using hk) 0 d]
  congr 1
  rw [List.getD_eq_getElem?_getD, List.getElem?_range hk]
  rfl

theorem keepCount_doc_pos (budget m : ℕ) (sents : List (List ℕ)) (hne : sents ≠ [])
    (hsent : ∀ s ∈ sents, s.length ≤ m) (hm : m ≤ budget) :
    1 ≤ keepCount budget (sents.map List.length) 0 := by
  cases sents with
  | nil => exact absurd rfl hne
  | cons s0 rest =>
    simp only [List.map_cons]
    refine keepCount_pos _ _ _ _ ?_
    have := hsent s0 (List.mem_cons_self _ _)
    omega

/-! ### Zeta-expanded equations for the two batch builders -/

theorem createSrcTokBatch_eq (cfg : Config) (po : PermOracle) (samples : List (List ℕ)) :
    createSrcTokBatch cfg po samples =
      if cfg.sepId = 1 then none
      else ((List.range (retainedPerm cfg samples).length).mapM (fun k =>
          permPathDoc cfg (po.shuffleOut k) (po.startPos k) (po.permOut k)
            ((retainedPerm cfg samples).getD k []))).map
        (fun docs => docs2tensor docs cfg.padIdx cfg.sepId) := rfl

theorem createBatch_eq (cfg : Config) (mo : MaskOracle) (samples : List (List ℕ)) :
    createBatch cfg mo samples =
      if cfg.sepId = cfg.unkIdx then none
      else
        match maskedSents2tensor
            (((List.range (retainedMaskDocs cfg samples).length).map
              (fun i => maskSentencesDoc cfg mo (retainedMaskDocs cfg samples) i)).map
                (fun r => r.2.1))
            (((List.range (retainedMaskDocs cfg samples).length).map
              (fun i => maskSentencesDoc cfg mo (retainedMaskDocs cfg samples) i)).map
                (fun r => r.2.2))
            cfg.padIdx cfg.clsIdx cfg.sepId with
        | none => none
        | some m =>
          some (doc2tensor
            (((List.range (retainedMaskDocs cfg samples).length).map
              (fun i => maskSentencesDoc cfg mo (retainedMaskDocs cfg samples) i)).map
                (fun r => r.1))
            cfg.padIdx cfg.sepId, m) := rfl

/-! ### The permutation path succeeds on every retained document -/

theorem permPathDoc_def (cfg : Config) (sh : List ℕ) (sp : ℕ) (pe : List ℕ)
    (sents : List (List ℕ)) :
    permPathDoc cfg sh sp pe sents =
      match shuffleSentsOrder cfg.fixRatio
          (truncateSents cfg.maxTokensLen sents []).length sh sp pe with
      | none => none
      | some ord => some (flattenGreedy cfg.maxTokensLen
          (applyOrder (truncateSents cfg.maxTokensLen sents []).length ord sents)
          [] []) := rfl

theorem permPathDoc_spec (cfg : Config) (sh : List ℕ) (sp : ℕ) (pe : List ℕ)
    (sents : List (List ℕ))
    (hne : sents ≠ [])
    (hsent : ∀ s ∈ sents, 1 ≤ s.length ∧ s.length ≤ cfg.maxSentLen + 3)
    (hbudget : cfg.maxSentLen + 3 ≤ cfg.maxTokensLen)
    (hsh : cfg.fixRatio = 0 →
      sh.Perm (List.range (truncateSents cfg.maxTokensLen sents []).length))
    (hfix : cfg.fixRatio ≠ 0 →
      sp < (truncateSents cfg.maxTokensLen sents []).length -
          lenFixed cfg.fixRatio (truncateSents cfg.maxTokensLen sents []).length ∧
      pe.Perm (npDelete
        (List.range (truncateSents cfg.maxTokensLen sents []).length)
        (List.range' sp
          (lenFixed cfg.fixRatio (truncateSents cfg.maxTokensLen sents []).length)))) :
    ∃ res, permPathDoc cfg sh sp pe sents = some res ∧
      res.1.length =
        ((sents.take (keepCount cfg.maxTokensLen (sents.map List.length) 0)).map
          List.length).sum ∧
      res.2.length = keepCount cfg.maxTokensLen (sents.map List.length) 0 := by
  have hts : truncateSents cfg.maxTokensLen sents [] =
      sents.take (keepCount cfg.maxTokensLen (sents.map List.length) 0) := by
    rw [truncateSents_eq]
    simp
  have hkcle : keepCount cfg.maxTokensLen (sents.map List.length) 0 ≤ sents.length := by
    have := keepCount_le_length cfg.maxTokensLen (sents.map List.length) 0
    rwa [List.length_map] at this
  have hn : (truncateSents cfg.maxTokensLen sents []).length =
      keepCount cfg.maxTokensLen (sents.map List.length) 0 := by
    rw [hts, List.length_take]
    omega
  have hkcpos : 1 ≤ keepCount cfg.maxTokensLen (sents.map List.length) 0 :=
    keepCount_doc_pos cfg.maxTokensLen (cfg.maxSentLen + 3) sents hne
      (fun s hs => (hsent s hs).2) hbudget
  have hsum : ((sents.take (keepCount cfg.maxTokensLen (sents.map List.length) 0)).map
      List.length).sum ≤ cfg.maxTokensLen := by
    have := kept_sum_le cfg.maxTokensLen (sents.map List.length) 0 (Nat.zero_le _)
    rw [List.map_take]
    omega
  have hord : ∃ ord, shuffleSentsOrder cfg.fixRatio
      (truncateSents cfg.maxTokensLen sents []).length sh sp pe = some ord ∧
      ord.Perm (List.range (truncateSents cfg.maxTokensLen sents []).length) := by
    by_cases hr : cfg.fixRatio = 0
    · refine ⟨sh, ?_, hsh hr⟩
      unfold shuffleSentsOrder
      rw [if_pos hr]
    · rcases hfix hr with ⟨hsp, hpe⟩
      refine ⟨_, ?_, targetOrderFixed_perm _ _ _ hpe⟩
      unfold shuffleSentsOrder
      rw [if_neg hr, if_neg (by omega)]
  rcases hord with ⟨ord, hordeq, hordperm⟩
  rw [hn] at hordperm
  have hperm := applyOrder_perm (keepCount cfg.maxTokensLen (sents.map List.length) 0)
    ord sents hordperm hkcle
  have hplen : (applyOrder (keepCount cfg.maxTokensLen (sents.map List.length) 0)
      ord sents).length = keepCount cfg.maxTokensLen (sents.map List.length) 0 :=
    applyOrder_length _ _ _
  have hpsum : ((applyOrder (keepCount cfg.maxTokensLen (sents.map List.length) 0)
      ord sents).map List.length).sum =
      ((sents.take (keepCount cfg.maxTokensLen (sents.map List.length) 0)).map
        List.length).sum :=
    List.Perm.sum_eq (hperm.map List.length)
  have hall : keepCount cfg.maxTokensLen
      ((applyOrder (keepCount cfg.maxTokensLen (sents.map List.length) 0)
        ord sents).map List.length) 0 =
      keepCount cfg.maxTokensLen (sents.map List.length) 0 := by
    rw [keepCount_all cfg.maxTokensLen _ 0 (by rw [hpsum]; omega), List.length_map, hplen]
  have hfg := flattenGreedy_eq cfg.maxTokensLen
    (applyOrder (keepCount cfg.maxTokensLen (sents.map List.length) 0) ord sents) [] []
  rw [List.length_nil, hall, List.take_of_length_le (le_of_eq hplen)] at hfg
  refine ⟨flattenGreedy cfg.maxTokensLen
    (applyOrder (keepCount cfg.maxTokensLen (sents.map List.length) 0) ord sents) [] [],
    ?_, ?_, ?_⟩
  · rw [permPathDoc_def, hordeq, hn]
  · rw [hfg]
    simp only [List.nil_append]
    rw [List.length_flatten, hpsum]
  · rw [hfg]
    simp only [List.nil_append]
    rw [posList_length, List.length_map, hplen]

theorem flattenDoc_fst_length (d : List (List ℕ)) :
    (flattenDoc d [] []).1.length = (d.map List.length).sum := by
  rw [flattenDoc_eq]
  simp [List.length_flatten]

theorem flattenDoc_snd_length (d : List (List ℕ)) :
    (flattenDoc d [] []).2.length = d.length := by
  rw [flattenDoc_eq]
  simp [posList_length]

/-- C1: for every non-empty batch of non-empty samples (with a usable
document cap, a sentence cap that fits the token budget, and the two
separator-id preconditions the source asserts), and for every state of the
random generator (any draws satisfying the numpy contracts), both
tensorizers succeed, the document-padding mask, segment-id tensor and
per-document sentence-count list of the permutation path equal those of the
masking path element-wise, and `collate` returns the assembled batch;
moreover for any inputs whatsoever, whenever the two tensorizers succeed
with mismatching meta tensors, `collate` aborts with the assertion
failure. -/
theorem c1_cross_view_consistency (cfg : Config) (po : PermOracle) (mo : MaskOracle)
    (samples : List (List ℕ))
    (hne : samples ≠ [])
    (hsrc : ∀ s ∈ samples, s ≠ [])
    (hmd : cfg.maxDocLength ≠ some 0)
    (hbudget : cfg.maxSentLen + 3 ≤ cfg.maxTokensLen)
    (hsep1 : cfg.sepId ≠ 1)
    (hsepunk : cfg.sepId ≠ cfg.unkIdx)
    (hminp : 1 ≤ cfg.minPredictionsPerDoc)
    (hmaxp : 1 ≤ cfg.maxPredictionsPerDoc)
    (hpo : permOracleValid cfg po samples)
    (hmo : maskOracleValid cfg mo samples) :
    (∃ t1 t2 m, createSrcTokBatch cfg po samples = some t1 ∧
      createBatch cfg mo samples = some (t2, m) ∧
      t1.docPadMask = t2.docPadMask ∧ t1.segmentIds = t2.segmentIds ∧
      t1.nsents = t2.nsents ∧
      collate cfg po mo samples = CollateResult.batch t1 t2 m) ∧
    (∀ (cfg' : Config) (po' : PermOracle) (mo' : MaskOracle)
        (samples' : List (List ℕ)) (t1 t2 : DocsTensor) (m : MaskedTensors),
      samples' ≠ [] →
      createSrcTokBatch cfg' po' samples' = some t1 →
      createBatch cfg' mo' samples' = some (t2, m) →
      ¬ (t1.docPadMask = t2.docPadMask ∧ t1.segmentIds = t2.segmentIds ∧
          t1.nsents = t2.nsents) →
      collate cfg' po' mo' samples' = CollateResult.assertMismatch) := by
  refine ⟨?_, ?_⟩
  case refine_2 =>
    intro cfg' po' mo' samples' t1 t2 m hne' h1 h2 hmis
    unfold collate
    rw [if_neg (fun h0 => hne' (List.length_eq_zero.mp h0)), h1, h2]
    exact if_neg hmis
  have hR : retainedPerm cfg samples = retainedMask cfg samples :=
    retained_eq cfg hmd samples
  have hNlen : (retainedMask cfg samples).length = samples.length :=
    retainedMask_length cfg samples hsrc hmd
  have hN0 : (retainedMask cfg samples).length ≠ 0 := by
    rw [hNlen]
    intro h0
    exact hne (List.length_eq_zero.mp h0)
  have hPlen : (retainedMaskDocs cfg samples).length =
      (retainedMask cfg samples).length := by
    unfold retainedMaskDocs
    rw [List.length_map]
  unfold permOracleValid at hpo
  rw [hR] at hpo
  have hinv := retained_sentence_invariant cfg samples
  have hdoc : ∀ k, k < (retainedMask cfg samples).length →
      ((retainedMask cfg samples).getD k [] ≠ [] ∧
       ∀ sent ∈ (retainedMask cfg samples).getD k [], 2 ≤ sent.length ∧
         sent.length ≤ cfg.maxSentLen + 3 ∧ sent.headD 0 = cfg.clsIdx ∧
         sent.getLastD 0 = cfg.sepId) := by
    intro k hk
    exact hinv _ (getD_mem_of_lt _ k hk [])
  have hpool : ∀ k, k < (retainedMask cfg samples).length →
      (retainedMaskDocs cfg samples).getD k [] =
        ((retainedMask cfg samples).getD k []).take
          (keepCount cfg.maxTokensLen
            (((retainedMask cfg samples).getD k []).map List.length) 0) := by
    intro k hk
    unfold retainedMaskDocs
    rw [getD_map_of_lt _ _ k hk [] []]
    exact getDocsTruncAux_ds _ _
  have hpoollen : ∀ k, k < (retainedMask cfg samples).length →
      ((retainedMaskDocs cfg samples).getD k []).length =
        keepCount cfg.maxTokensLen
          (((retainedMask cfg samples).getD k []).map List.length) 0 := by
    intro k hk
    rw [hpool k hk, List.length_take]
    have h1 := keepCount_le_length cfg.maxTokensLen
      (((retainedMask cfg samples).getD k []).map List.length) 0
    rw [List.length_map] at h1
    omega
  have hkcpos : ∀ k, k < (retainedMask cfg samples).length →
      1 ≤ keepCount cfg.maxTokensLen
        (((retainedMask cfg samples).getD k []).map List.length) 0 := by
    intro k hk
    refine keepCount_doc_pos _ (cfg.maxSentLen + 3) _ (hdoc k hk).1 ?_ hbudget
    intro s hs
    exact ((hdoc k hk).2 s hs).2.1
  have hpoolsum : ∀ k, k < (retainedMask cfg samples).length →
      (((retainedMaskDocs cfg samples).getD k []).map List.length).sum ≤
        cfg.maxTokensLen := by
    intro k hk
    rw [hpool k hk, List.map_take]
    have := kept_sum_le cfg.maxTokensLen
      (((retainedMask cfg samples).getD k []).map List.length) 0 (Nat.zero_le _)
    omega
  have hpoolsent : ∀ k, k < (retainedMask cfg samples).length →
      ∀ sent ∈ (retainedMaskDocs cfg samples).getD k [],
        2 ≤ sent.length ∧ sent.headD 0 = cfg.clsIdx ∧
        sent.getLastD 0 = cfg.sepId := by
    intro k hk sent hsent
    rw [hpool k hk] at hsent
    have hmem : sent ∈ (retainedMask cfg samples).getD k [] :=
      (List.take_sublist _ _).mem hsent
    rcases (hdoc k hk).2 sent hmem with ⟨h1, _, h3, h4⟩
    exact ⟨h1, h3, h4⟩
  have hstats : ∀ k, k < (retainedMask cfg samples).length →
      (maskSentencesDoc cfg mo (retainedMaskDocs cfg samples) k).1.length =
        ((retainedMaskDocs cfg samples).getD k []).length ∧
      ((maskSentencesDoc cfg mo (retainedMaskDocs cfg samples) k).1.map
        List.length).sum =
        (((retainedMaskDocs cfg samples).getD k []).map List.length).sum ∧
      (maskSentencesDoc cfg mo (retainedMaskDocs cfg samples) k).2.1 =
        selectedIndexesOf cfg.minPredictionsPerDoc cfg.maxPredictionsPerDoc
          cfg.maskedSentProb (mo.candiShuffle k) ∧
      (maskSentencesDoc cfg mo (retainedMaskDocs cfg samples) k).2.2 =
        (selectedIndexesOf cfg.minPredictionsPerDoc cfg.maxPredictionsPerDoc
          cfg.maskedSentProb (mo.candiShuffle k)).map
          (fun i => ((retainedMaskDocs cfg samples).getD k []).getD i []) := by
    intro k hk
    have hk' : k < (retainedMaskDocs cfg samples).length := by
      rw [hPlen]
      exact hk
    rcases hmo k hk' with ⟨hcandi, hinner, hrnd⟩
    refine maskSentencesDoc_stats cfg mo (retainedMaskDocs cfg samples) k
      (hpoolsum k hk) ?_ hcandi hinner ?_
    · intro sent hsent
      have := (hpoolsent k hk sent hsent).1
      omega
    · intro j hj hact
      rcases hrnd j hj hact with ⟨hd, hs⟩
      have hdR : mo.rndDocIdx k j < (retainedMask cfg samples).length := by
        rw [← hPlen]
        exact hd
      have hmm : getRndSent (retainedMaskDocs cfg samples) (mo.rndDocIdx k j)
          (mo.rndSentIdx k j) ∈
          (retainedMaskDocs cfg samples).getD (mo.rndDocIdx k j) [] := by
        unfold getRndSent
        exact getD_mem_of_lt _ _ hs []
      have := (hpoolsent (mo.rndDocIdx k j) hdR _ hmm).1
      omega
  have hselbound : ∀ k, k < (retainedMask cfg samples).length →
      ∀ i ∈ selectedIndexesOf cfg.minPredictionsPerDoc cfg.maxPredictionsPerDoc
          cfg.maskedSentProb (mo.candiShuffle k),
        i < ((retainedMaskDocs cfg samples).getD k []).length := by
    intro k hk i hi
    have hk' : k < (retainedMaskDocs cfg samples).length := by
      rw [hPlen]
      exact hk
    have hcandi := (hmo k hk').1
    have hperm : (selectedIndexesOf cfg.minPredictionsPerDoc
        cfg.maxPredictionsPerDoc cfg.maskedSentProb (mo.candiShuffle k)).Perm
        ((mo.candiShuffle k).take (numPreds cfg.minPredictionsPerDoc
          cfg.maxPredictionsPerDoc (mo.candiShuffle k).length
          cfg.maskedSentProb)) := List.mergeSort_perm _ _
    have h1 := hperm.mem_iff.mp hi
    have h2 := (List.take_sublist _ _).mem h1
    exact List.mem_range.mp (hcandi.mem_iff.mp h2)
  have hsel1 : ∀ k, k < (retainedMask cfg samples).length →
      1 ≤ (selectedIndexesOf cfg.minPredictionsPerDoc cfg.maxPredictionsPerDoc
        cfg.maskedSentProb (mo.candiShuffle k)).length := by
    intro k hk
    have hk' : k < (retainedMaskDocs cfg samples).length := by
      rw [hPlen]
      exact hk
    have hcandi := (hmo k hk').1
    have hclen : (mo.candiShuffle k).length =
        ((retainedMaskDocs cfg samples).getD k []).length := by
      rw [hcandi.length_eq, List.length_range]
    have hperm : (selectedIndexesOf cfg.minPredictionsPerDoc
        cfg.maxPredictionsPerDoc cfg.maskedSentProb (mo.candiShuffle k)).Perm
        ((mo.candiShuffle k).take (numPreds cfg.minPredictionsPerDoc
          cfg.maxPredictionsPerDoc (mo.candiShuffle k).length
          cfg.maskedSentProb)) := List.mergeSort_perm _ _
    rw [hperm.length_eq, List.length_take]
    have h1 : 1 ≤ numPreds cfg.minPredictionsPerDoc cfg.maxPredictionsPerDoc
        (mo.candiShuffle k).length cfg.maskedSentProb :=
      le_min (le_trans hminp (le_max_left _ _)) hmaxp
    have h2 : 1 ≤ (mo.candiShuffle k).length := by
      rw [hclen, hpoollen k hk]
      exact hkcpos k hk
    exact le_min h1 h2
  have hppd : ∀ k, k < (retainedMask cfg samples).length →
      ∃ res, permPathDoc cfg (po.shuffleOut k) (po.startPos k) (po.permOut k)
          ((retainedMask cfg samples).getD k []) = some res ∧
        res.1.length = ((((retainedMask cfg samples).getD k []).take
          (keepCount cfg.maxTokensLen
            (((retainedMask cfg samples).getD k []).map List.length) 0)).map
            List.length).sum ∧
        res.2.length = keepCount cfg.maxTokensLen
          (((retainedMask cfg samples).getD k []).map List.length) 0 := by
    intro k hk
    rcases hpo k hk with ⟨hsh, hfix⟩
    refine permPathDoc_spec cfg _ _ _ _ (hdoc k hk).1 ?_ hbudget hsh hfix
    intro s hs
    rcases (hdoc k hk).2 s hs with ⟨h1, h2, _, _⟩
    exact ⟨by omega, h2⟩
  have hmapM : (List.range (retainedMask cfg samples).length).mapM (fun k =>
      permPathDoc cfg (po.shuffleOut k) (po.startPos k) (po.permOut k)
        ((retainedMask cfg samples).getD k [])) =
      some ((List.range (retainedMask cfg samples).length).map (fun k =>
        (permPathDoc cfg (po.shuffleOut k) (po.startPos k) (po.permOut k)
          ((retainedMask cfg samples).getD k [])).getD ([], []))) := by
    refine mapM_eq_some_map _ _ _ ?_
    intro a ha
    rcases hppd a (List.mem_range.mp ha) with ⟨res, hres, _, _⟩
    rw [hres]
    rfl
  have ht1 : createSrcTokBatch cfg po samples =
      some (docs2tensor ((List.range (retainedMask cfg samples).length).map (fun k =>
        (permPathDoc cfg (po.shuffleOut k) (po.startPos k) (po.permOut k)
          ((retainedMask cfg samples).getD k [])).getD ([], [])))
        cfg.padIdx cfg.sepId) := by
    rw [createSrcTokBatch_eq, if_neg hsep1, hR, hmapM]
    rfl
  have hbsz' : ¬ ((((List.range (retainedMaskDocs cfg samples).length).map
      (fun i => maskSentencesDoc cfg mo (retainedMaskDocs cfg samples) i)).map
      (fun r => r.2.1)).length = 0) := by
    simp only [List.length_map, List.length_range]
    rw [hPlen]
    exact hN0
  have hlen' : ((((List.range (retainedMaskDocs cfg samples).length).map
      (fun i => maskSentencesDoc cfg mo (retainedMaskDocs cfg samples) i)).map
      (fun r => r.2.1)).length) =
      ((((List.range (retainedMaskDocs cfg samples).length).map
      (fun i => maskSentencesDoc cfg mo (retainedMaskDocs cfg samples) i)).map
      (fun r => r.2.2)).length) := by
    simp
  have hpair' : ∀ k, k < ((((List.range (retainedMaskDocs cfg samples).length).map
      (fun i => maskSentencesDoc cfg mo (retainedMaskDocs cfg samples) i)).map
      (fun r => r.2.2)).length) →
      (((((List.range (retainedMaskDocs cfg samples).length).map
        (fun i => maskSentencesDoc cfg mo (retainedMaskDocs cfg samples) i)).map
        (fun r => r.2.1)).getD k []).length) =
      (((((List.range (retainedMaskDocs cfg samples).length).map
        (fun i => maskSentencesDoc cfg mo (retainedMaskDocs cfg samples) i)).map
        (fun r => r.2.2)).getD k []).length) := by
    intro k hk2
    have hkN : k < (retainedMask cfg samples).length := by
      simp only [List.length_map, List.length_range] at hk2
      rw [← hPlen]
      exact hk2
    have hkP : k < (retainedMaskDocs cfg samples).length := by
      rw [hPlen]
      exact hkN
    rw [List.map_map, List.map_map, getD_map_range _ _ k hkP [],
      getD_map_range _ _ k hkP []]
    show (maskSentencesDoc cfg mo (retainedMaskDocs cfg samples) k).2.1.length =
      (maskSentencesDoc cfg mo (retainedMaskDocs cfg samples) k).2.2.length
    rw [(hstats k hkN).2.2.1, (hstats k hkN).2.2.2, List.length_map]
  have hnonempty' : ∀ ms ∈ (((List.range (retainedMaskDocs cfg samples).length).map
      (fun i => maskSentencesDoc cfg mo (retainedMaskDocs cfg samples) i)).map
      (fun r => r.2.2)), ¬ ms = [] := by
    intro ms hms
    rw [List.map_map] at hms
    rcases List.mem_map.mp hms with ⟨k, hkmem, rfl⟩
    have hkP := List.mem_range.mp hkmem
    have hkN : k < (retainedMask cfg samples).length := by
      rw [← hPlen]
      exact hkP
    show ¬ (maskSentencesDoc cfg mo (retainedMaskDocs cfg samples) k).2.2 = []
    rw [(hstats k hkN).2.2.2]
    intro hnil
    rw [List.map_eq_nil_iff] at hnil
    have hlen1 := hsel1 k hkN
    rw [hnil] at hlen1
    simp at hlen1
  have hsent' : ∀ ms ∈ (((List.range (retainedMaskDocs cfg samples).length).map
      (fun i => maskSentencesDoc cfg mo (retainedMaskDocs cfg samples) i)).map
      (fun r => r.2.2)), ∀ sent ∈ ms,
      2 ≤ sent.length ∧ sent.headD 0 = cfg.clsIdx ∧
      sent.getLastD 0 = cfg.sepId := by
    intro ms hms sent hsent
    rw [List.map_map] at hms
    rcases List.mem_map.mp hms with ⟨k, hkmem, rfl⟩
    have hkP := List.mem_range.mp hkmem
    have hkN : k < (retainedMask cfg samples).length := by
      rw [← hPlen]
      exact hkP
    have hsent2 : sent ∈ (maskSentencesDoc cfg mo
        (retainedMaskDocs cfg samples) k).2.2 := hsent
    rw [(hstats k hkN).2.2.2] at hsent2
    rcases List.mem_map.mp hsent2 with ⟨i, himem, rfl⟩
    have hi := hselbound k hkN i himem
    exact hpoolsent k hkN _ (getD_mem_of_lt _ i hi [])
  have hmt := maskedSents2tensor_eq_some
    (((List.range (retainedMaskDocs cfg samples).length).map
      (fun i => maskSentencesDoc cfg mo (retainedMaskDocs cfg samples) i)).map
      (fun r => r.2.1))
    (((List.range (retainedMaskDocs cfg samples).length).map
      (fun i => maskSentencesDoc cfg mo (retainedMaskDocs cfg samples) i)).map
      (fun r => r.2.2))
    cfg.padIdx cfg.clsIdx cfg.sepId hbsz' hlen' hpair' hnonempty' hsent'
  obtain ⟨M, hM⟩ : ∃ M, maskedSents2tensor
      (((List.range (retainedMaskDocs cfg samples).length).map
        (fun i => maskSentencesDoc cfg mo (retainedMaskDocs cfg samples) i)).map
        (fun r => r.2.1))
      (((List.range (retainedMaskDocs cfg samples).length).map
        (fun i => maskSentencesDoc cfg mo (retainedMaskDocs cfg samples) i)).map
        (fun r => r.2.2))
      cfg.padIdx cfg.clsIdx cfg.sepId = some M := ⟨_, hmt⟩
  have ht2 : createBatch cfg mo samples =
      some (doc2tensor (((List.range (retainedMaskDocs cfg samples).length).map
        (fun i => maskSentencesDoc cfg mo (retainedMaskDocs cfg samples) i)).map
        (fun r => r.1)) cfg.padIdx cfg.sepId, M) := by
    rw [createBatch_eq, if_neg hsepunk, hM]
  have h1meta : (((List.range (retainedMask cfg samples).length).map (fun k =>
      (permPathDoc cfg (po.shuffleOut k) (po.startPos k) (po.permOut k)
        ((retainedMask cfg samples).getD k [])).getD ([], []))).map
      (fun d => d.1.length)) =
      ((((((List.range (retainedMaskDocs cfg samples).length).map
        (fun i => maskSentencesDoc cfg mo (retainedMaskDocs cfg samples) i)).map
        (fun r => r.1)).map (fun d => flattenDoc d [] [])).map
        (fun d => d.1.length))) := by
    apply List.ext_getElem
    · simp [hPlen]
    · intro k hk1 hk2
      have hkN : k < (retainedMask cfg samples).length := by
        simp only [List.length_map, List.length_range] at hk1
        exact hk1
      simp only [List.getElem_map, List.getElem_range]
      rcases hppd k hkN with ⟨res, hres, hr1, hr2⟩
      have hgk : (permPathDoc cfg (po.shuffleOut k) (po.startPos k) (po.permOut k)
          ((retainedMask cfg samples).getD k [])).getD ([], []) = res := by
        rw [hres]
        rfl
      rw [hgk, hr1, flattenDoc_fst_length, (hstats k hkN).2.1, hpool k hkN]
  have h2meta : (((List.range (retainedMask cfg samples).length).map (fun k =>
      (permPathDoc cfg (po.shuffleOut k) (po.startPos k) (po.permOut k)
        ((retainedMask cfg samples).getD k [])).getD ([], []))).map
      (fun d => d.2.length)) =
      ((((((List.range (retainedMaskDocs cfg samples).length).map
        (fun i => maskSentencesDoc cfg mo (retainedMaskDocs cfg samples) i)).map
        (fun r => r.1)).map (fun d => flattenDoc d [] [])).map
        (fun d => d.2.length))) := by
    apply List.ext_getElem
    · simp [hPlen]
    · intro k hk1 hk2
      have hkN : k < (retainedMask cfg samples).length := by
        simp only [List.length_map, List.length_range] at hk1
        exact hk1
      simp only [List.getElem_map, List.getElem_range]
      rcases hppd k hkN with ⟨res, hres, hr1, hr2⟩
      have hgk : (permPathDoc cfg (po.shuffleOut k) (po.startPos k) (po.permOut k)
          ((retainedMask cfg samples).getD k [])).getD ([], []) = res := by
        rw [hres]
        rfl
      rw [hgk, hr2, flattenDoc_snd_length, (hstats k hkN).1, hpoollen k hkN]
  have hmeta := docs2tensor_meta_congr
    ((List.range (retainedMask cfg samples).length).map (fun k =>
      (permPathDoc cfg (po.shuffleOut k) (po.startPos k) (po.permOut k)
        ((retainedMask cfg samples).getD k [])).getD ([], [])))
    (((((List.range (retainedMaskDocs cfg samples).length).map
      (fun i => maskSentencesDoc cfg mo (retainedMaskDocs cfg samples) i)).map
      (fun r => r.1)).map (fun d => flattenDoc d [] [])))
    cfg.padIdx cfg.padIdx cfg.sepId cfg.sepId h1meta h2meta
  refine ⟨_, _, M, ht1, ht2, hmeta.1, hmeta.2.1, hmeta.2.2, ?_⟩
  unfold collate
  rw [if_neg (fun h0 => hne (List.length_eq_zero.mp h0)), ht1, ht2]
  exact if_pos ⟨hmeta.1, hmeta.2.1, hmeta.2.2⟩

/-- C10: `collate` called on an empty sample list returns the empty result
(the source's `return {}` on line 291), for every configuration and every
state of the random generator. -/
theorem c10_empty_collate (cfg : Config) (po : PermOracle) (mo : MaskOracle) :
    collate cfg po mo [] = CollateResult.empty := rfl

/-- C1 witness: one sample `[5, 2, 6, 2]` (separator 2, class 3, pad 0,
mask 4, unk 9, no document cap, sentence cap 10, budget 100, `fix_ratio`
0, identity-free draws) produces an assembled batch. -/
theorem c1_cross_view_consistency_witness :
    ∃ t1 t2 m, collate
      { sepId := 2, clsIdx := 3, padIdx := 0, maskIdx := 4, unkIdx := 9,
        maxDocLength := none, maxSentLen := 10, maxTokensLen := 100,
        fixRatio := 0, maskedSentProb := 1/2, minPredictionsPerDoc := 1,
        maxPredictionsPerDoc := 10 }
      { shuffleOut := fun _ => [1, 0], startPos := fun _ => 0,
        permOut := fun _ => [] }
      { candiShuffle := fun _ => [1, 0], gate := fun _ => false,
        innerPerm := fun _ => [], act := fun _ _ => CorruptAction.keepOriginal,
        rndDocIdx := fun _ _ => 0, rndSentIdx := fun _ _ => 0 }
      [[5, 2, 6, 2]] = CollateResult.batch t1 t2 m := by
  have h := (c1_cross_view_consistency
    { sepId := 2, clsIdx := 3, padIdx := 0, maskIdx := 4, unkIdx := 9,
      maxDocLength := none, maxSentLen := 10, maxTokensLen := 100,
      fixRatio := 0, maskedSentProb := 1/2, minPredictionsPerDoc := 1,
      maxPredictionsPerDoc := 10 }
    { shuffleOut := fun _ => [1, 0], startPos := fun _ => 0,
      permOut := fun _ => [] }
    { candiShuffle := fun _ => [1, 0], gate := fun _ => false,
      innerPerm := fun _ => [], act := fun _ _ => CorruptAction.keepOriginal,
      rndDocIdx := fun _ _ => 0, rndSentIdx := fun _ _ => 0 }
    [[5, 2, 6, 2]]
    (by decide) (by decide) (by decide) (by decide) (by decide) (by decide)
    (by decide) (by decide)
    (by
      intro k hk
      cases k with
      | zero =>
        constructor
        · intro _
          decide
        · intro hr
          exact absurd rfl hr
      | succ n =>
        have hlen : (retainedPerm
            { sepId := 2, clsIdx := 3, padIdx := 0, maskIdx := 4, unkIdx := 9,
              maxDocLength := none, maxSentLen := 10, maxTokensLen := 100,
              fixRatio := 0, maskedSentProb := 1/2, minPredictionsPerDoc := 1,
              maxPredictionsPerDoc := 10 }
            [[5, 2, 6, 2]]).length = 1 := by decide
        rw [hlen] at hk
        omega)
    (by
      intro k hk
      cases k with
      | zero =>
        refine ⟨by decide, ?_, ?_⟩
        · intro hg
          exact Bool.noConfusion hg
        · intro j hj hact
          exact CorruptAction.noConfusion hact
      | succ n =>
        have hlen : (retainedMaskDocs
            { sepId := 2, clsIdx := 3, padIdx := 0, maskIdx := 4, unkIdx := 9,
              maxDocLength := none, maxSentLen := 10, maxTokensLen := 100,
              fixRatio := 0, maskedSentProb := 1/2, minPredictionsPerDoc := 1,
              maxPredictionsPerDoc := 10 }
            [[5, 2, 6, 2]]).length = 1 := by decide
        rw [hlen] at hk
        omega)).1
  rcases h with ⟨t1, t2, m, _, _, _, _, _, hcol⟩
  exact ⟨t1, t2, m, hcol⟩

end STAS
